import Mathlib

set_option maxRecDepth 8000

/-! Verification of scripts/ungraded.py: extraction of student answers to
ungraded problems from a course-structure JSON document and a
courseware-studentmodule TSV table.  Python dictionaries are modelled as
association lists in insertion order with unique keys; a Python KeyError or
other exception is modelled by the Except monad. -/

/-- JSON values as returned by the Python function json.loads.  Numbers are
kept as their raw lexemes because the program never inspects a number. -/
inductive Json where
  | null : Json
  | bool : Bool → Json
  | num : String → Json
  | str : String → Json
  | arr : List Json → Json
  | obj : List (String × Json) → Json

/-- Lookup in a Python dict modelled as an association list: the binding of
the first occurrence of the key (dict keys are unique, so this is the
binding of the key). -/
def pyGet {α : Type} : List (String × α) → String → Option α
  | [], _ => none
  | (k, v) :: rest, key => if k = key then some v else pyGet rest key

/-- Evaluate a Python subscript d[k]: a missing key raises, which is modelled
in the Except monad with the given message. -/
def pyReq {α : Type} : Option α → String → Except String α
  | some a, _ => Except.ok a
  | none, e => Except.error e

/-- One node of the course-structure document.  The script reads only the
keys category, metadata and children of a node, so only those are modelled;
a field is none when the key is absent from the node dict.  Metadata values
are modelled as strings: the script only tests key membership of the
metadata dict (the key graded) and reads the string display_name. -/
structure PyNode where
  category : Option String
  metadata : Option (List (String × String))
  children : Option (List String)
deriving DecidableEq

/-- The course_structure JSON object: node id to node, in document order. -/
abbrev CourseStructure := List (String × PyNode)

/-- The dict self.ungraded: section display_name to the list of pairs
(problem display_name, problem id), in insertion order. -/
abbrev UngradedMap := List (String × List (String × String))

/-- The Python statement d.setdefault(k, []).append(v): append v to the list
bound to k, inserting the binding k to [v] at the end when k is absent. -/
def setdefaultAppend (m : UngradedMap) (k : String) (v : String × String) : UngradedMap :=
  match m with
  | [] => [(k, [v])]
  | (k0, vs) :: rest =>
    if k0 = k then (k0, vs ++ [v]) :: rest
    else (k0, vs) :: setdefaultAppend rest k v

/-- Body of the loop of UngradedProblems.add_from_vert for one child id:
look the child up in course_structure, and when its category is problem,
append (child display_name, child id) to the list of the section named by
the display_name of the vertical.  The evaluation order of the Python
statement is kept: the display_name of the vertical is read before the
metadata of the child. -/
def add_from_vert_child (cs : CourseStructure) (vert : PyNode) (ung : UngradedMap)
    (child_id : String) : Except String UngradedMap := do
  let child ← pyReq (pyGet cs child_id) "KeyError: course_structure"
  let cat ← pyReq child.category "KeyError: category"
  if cat = "problem" then
    let vmeta ← pyReq vert.metadata "KeyError: metadata"
    let vertName ← pyReq (pyGet vmeta "display_name") "KeyError: display_name"
    let cmeta ← pyReq child.metadata "KeyError: metadata"
    let childName ← pyReq (pyGet cmeta "display_name") "KeyError: display_name"
    pure (setdefaultAppend ung vertName (childName, child_id))
  else
    pure ung

/-- The loop of UngradedProblems.add_from_vert over the children of a
vertical. -/
def addChildLoop (cs : CourseStructure) (vert : PyNode) :
    UngradedMap → List String → Except String UngradedMap
  | ung, [] => Except.ok ung
  | ung, c :: rest => do
    let ung1 ← add_from_vert_child cs vert ung c
    addChildLoop cs vert ung1 rest

/-- UngradedProblems.add_from_vert: read the children list of the vertical
(a missing key raises) and run the loop over it. -/
def add_from_vert (cs : CourseStructure) (ung : UngradedMap) (vert : PyNode) :
    Except String UngradedMap := do
  let kids ← pyReq vert.children "KeyError: children"
  addChildLoop cs vert ung kids

/-- The inner loop of UngradedProblems.extract_ungraded over the children of
an ungraded sequential: look each vertical up in course_structure and add
from it. -/
def vertLoop (cs : CourseStructure) :
    UngradedMap → List String → Except String UngradedMap
  | ung, [] => Except.ok ung
  | ung, vid :: rest => do
    let vert ← pyReq (pyGet cs vid) "KeyError: course_structure"
    let ung1 ← add_from_vert cs ung vert
    vertLoop cs ung1 rest

/-- Body of the top-level loop of UngradedProblems.extract_ungraded for one
node: when its category is sequential and its metadata lacks the key graded,
walk its children. -/
def extract_seq (cs : CourseStructure) (ung : UngradedMap) (desc : PyNode) :
    Except String UngradedMap := do
  let cat ← pyReq desc.category "KeyError: category"
  if cat = "sequential" then
    let md ← pyReq desc.metadata "KeyError: metadata"
    if pyGet md "graded" = none then
      let vertIds ← pyReq desc.children "KeyError: children"
      vertLoop cs ung vertIds
    else
      pure ung
  else
    pure ung

/-- The top-level loop of UngradedProblems.extract_ungraded over all items
of course_structure, in document order. -/
def topLoop (cs : CourseStructure) :
    UngradedMap → List (String × PyNode) → Except String UngradedMap
  | ung, [] => Except.ok ung
  | ung, p :: rest => do
    let ung1 ← extract_seq cs ung p.2
    topLoop cs ung1 rest

/-- UngradedProblems.extract_ungraded: build self.ungraded from the empty
dict by the top-level loop. -/
def extract_ungraded (cs : CourseStructure) : Except String UngradedMap :=
  topLoop cs [] cs

/-- Whether a character is one of the octal digits. -/
def isOct (c : Char) : Bool := '0' ≤ c && c ≤ '7'

/-- Whether a character is a hexadecimal digit. -/
def isHex (c : Char) : Bool :=
  ('0' ≤ c && c ≤ '9') || ('a' ≤ c && c ≤ 'f') || ('A' ≤ c && c ≤ 'F')

/-- Value of a hexadecimal digit. -/
def hexVal (c : Char) : Nat :=
  if '0' ≤ c && c ≤ '9' then c.toNat - '0'.toNat
  else if 'a' ≤ c && c ≤ 'f' then c.toNat - 'a'.toNat + 10
  else if 'A' ≤ c && c ≤ 'F' then c.toNat - 'A'.toNat + 10
  else 0

/-- Value of an octal digit. -/
def octVal (c : Char) : Nat := c.toNat - '0'.toNat

/-- The character with the given code point. -/
def mkChar (n : Nat) : Char := Char.ofNat n

/-- Read exactly n hexadecimal digits, accumulating their value. -/
def takeHex : Nat → Nat → List Char → Option (Nat × List Char)
  | 0, acc, l => some (acc, l)
  | _ + 1, _, [] => none
  | n + 1, acc, c :: rest =>
    if isHex c then takeHex n (acc * 16 + hexVal c) rest else none

/-- Model of the Python codec unicode_escape used by
s.encode().decode("unicode_escape"), on character lists, with fuel (each
step consumes at least one character, so fuel = length suffices).  The
escapes of the codec are handled; an unknown escape is kept literally, as
the codec does.  Error cases the script never meets (a lone trailing
backslash, a truncated hex escape) are modelled leniently by keeping the
characters literally. -/
def unescF : Nat → List Char → List Char
  | 0, l => l
  | _ + 1, [] => []
  | fuel + 1, c :: rest =>
    if c = '\\' then
      match rest with
      | [] => ['\\']
      | e :: rest1 =>
        if e = 'n' then '\n' :: unescF fuel rest1
        else if e = 't' then '\t' :: unescF fuel rest1
        else if e = 'r' then '\r' :: unescF fuel rest1
        else if e = '\\' then '\\' :: unescF fuel rest1
        else if e = mkChar 39 then mkChar 39 :: unescF fuel rest1
        else if e = '"' then '"' :: unescF fuel rest1
        else if e = 'b' then mkChar 8 :: unescF fuel rest1
        else if e = 'f' then mkChar 12 :: unescF fuel rest1
        else if e = 'v' then mkChar 11 :: unescF fuel rest1
        else if e = 'a' then mkChar 7 :: unescF fuel rest1
        else if e = '\n' then unescF fuel rest1
        else if e = 'x' then
          match takeHex 2 0 rest1 with
          | some (n, r) => mkChar n :: unescF fuel r
          | none => '\\' :: 'x' :: unescF fuel rest1
        else if e = 'u' then
          match takeHex 4 0 rest1 with
          | some (n, r) => mkChar n :: unescF fuel r
          | none => '\\' :: 'u' :: unescF fuel rest1
        else if e = 'U' then
          match takeHex 8 0 rest1 with
          | some (n, r) => mkChar n :: unescF fuel r
          | none => '\\' :: 'U' :: unescF fuel rest1
        else if isOct e then
          match rest1 with
          | d2 :: rest2 =>
            if isOct d2 then
              match rest2 with
              | d3 :: rest3 =>
                if isOct d3 then
                  mkChar (octVal e * 64 + octVal d2 * 8 + octVal d3) :: unescF fuel rest3
                else mkChar (octVal e * 8 + octVal d2) :: unescF fuel rest2
              | [] => mkChar (octVal e * 8 + octVal d2) :: unescF fuel rest2
            else mkChar (octVal e) :: unescF fuel rest1
          | [] => mkChar (octVal e) :: unescF fuel rest1
        else '\\' :: e :: unescF fuel rest1
    else c :: unescF fuel rest

/-- The line s.encode().decode("unicode_escape") of
extract_student_answers. -/
def unicode_escape_decode (s : String) : String :=
  ⟨unescF (s.data.length + 1) s.data⟩

/-- Skip JSON whitespace. -/
def skipWs : List Char → List Char
  | [] => []
  | c :: rest =>
    if c = ' ' ∨ c = '\t' ∨ c = '\n' ∨ c = '\r' then skipWs rest else c :: rest

/-- The opening curly bracket character. -/
def lbrace : Char := Char.ofNat 123

/-- The closing curly bracket character. -/
def rbrace : Char := Char.ofNat 125

/-- Parse the body of a JSON string literal after its opening quote,
accumulating decoded characters in reverse.  Surrogate pairs are not
combined into one code point; the program never reads individual
characters of a decoded string, so this does not affect it. -/
def pStr : Nat → List Char → List Char → Option (String × List Char)
  | 0, _, _ => none
  | _ + 1, _, [] => none
  | fuel + 1, acc, c :: rest =>
    if c = '"' then some (⟨acc.reverse⟩, rest)
    else if c = '\\' then
      match rest with
      | [] => none
      | e :: rest1 =>
        if e = '"' then pStr fuel ('"' :: acc) rest1
        else if e = '\\' then pStr fuel ('\\' :: acc) rest1
        else if e = '/' then pStr fuel ('/' :: acc) rest1
        else if e = 'b' then pStr fuel (mkChar 8 :: acc) rest1
        else if e = 'f' then pStr fuel (mkChar 12 :: acc) rest1
        else if e = 'n' then pStr fuel ('\n' :: acc) rest1
        else if e = 'r' then pStr fuel ('\r' :: acc) rest1
        else if e = 't' then pStr fuel ('\t' :: acc) rest1
        else if e = 'u' then
          match takeHex 4 0 rest1 with
          | some (n, r) => pStr fuel (mkChar n :: acc) r
          | none => none
        else none
    else pStr fuel (c :: acc) rest

/-- Whether a character can occur in a JSON number lexeme. -/
def numChar (c : Char) : Bool :=
  ('0' ≤ c && c ≤ '9') || c = '-' || c = '+' || c = '.' || c = 'e' || c = 'E'

/-- Parse a JSON number lexeme, keeping it raw. -/
def pNum (l : List Char) : Option (String × List Char) :=
  match l with
  | [] => none
  | c :: _ =>
    if ('0' ≤ c && c ≤ '9') || c = '-' then
      some (⟨l.takeWhile numChar⟩, l.dropWhile numChar)
    else none

mutual

/-- Parse one JSON value, with fuel. -/
def pVal : Nat → List Char → Option (Json × List Char)
  | 0, _ => none
  | fuel + 1, input =>
    match skipWs input with
    | [] => none
    | c :: rest =>
      if c = '"' then
        match pStr (rest.length + 1) [] rest with
        | some (s, r) => some (Json.str s, r)
        | none => none
      else if c = lbrace then
        match skipWs rest with
        | c2 :: rest2 =>
          if c2 = rbrace then some (Json.obj [], rest2)
          else
            match pMembers fuel (c2 :: rest2) with
            | some (kvs, r) => some (Json.obj kvs, r)
            | none => none
        | [] => none
      else if c = '[' then
        match skipWs rest with
        | c2 :: rest2 =>
          if c2 = ']' then some (Json.arr [], rest2)
          else
            match pElems fuel (c2 :: rest2) with
            | some (xs, r) => some (Json.arr xs, r)
            | none => none
        | [] => none
      else if c = 't' then
        match rest with
        | 'r' :: 'u' :: 'e' :: r => some (Json.bool true, r)
        | _ => none
      else if c = 'f' then
        match rest with
        | 'a' :: 'l' :: 's' :: 'e' :: r => some (Json.bool false, r)
        | _ => none
      else if c = 'n' then
        match rest with
        | 'u' :: 'l' :: 'l' :: r => some (Json.null, r)
        | _ => none
      else
        match pNum (c :: rest) with
        | some (s, r) => some (Json.num s, r)
        | none => none

/-- Parse the elements of a nonempty JSON array, after the opening
bracket. -/
def pElems : Nat → List Char → Option (List Json × List Char)
  | 0, _ => none
  | fuel + 1, input =>
    match pVal fuel input with
    | some (j, r) =>
      match skipWs r with
      | ',' :: r2 =>
        match pElems fuel r2 with
        | some (xs, r3) => some (j :: xs, r3)
        | none => none
      | ']' :: r2 => some ([j], r2)
      | _ => none
    | none => none

/-- Parse the members of a nonempty JSON object, after the opening curly
bracket. -/
def pMembers : Nat → List Char → Option (List (String × Json) × List Char)
  | 0, _ => none
  | fuel + 1, input =>
    match skipWs input with
    | '"' :: rest =>
      match pStr (rest.length + 1) [] rest with
      | some (k, r) =>
        match skipWs r with
        | ':' :: r2 =>
          match pVal fuel r2 with
          | some (v, r3) =>
            match skipWs r3 with
            | ',' :: r4 =>
              match pMembers fuel r4 with
              | some (kvs, r5) => some ((k, v) :: kvs, r5)
              | none => none
            | c5 :: r5 => if c5 = rbrace then some ([(k, v)], r5) else none
            | [] => none
          | none => none
        | _ => none
      | none => none
    | _ => none

end

/-- Model of the Python function json.loads: parse one JSON value and
require that only whitespace follows it.  The fuel is sufficient because
every recursive step consumes at least one character. -/
def jsonLoads (s : String) : Option Json :=
  match pVal (s.data.length + 2) s.data with
  | some (j, rest) => if skipWs rest = [] then some j else none
  | none => none

/-- UngradedProblems.extract_student_answers: unicode-escape-decode the
state string, parse the result as JSON, and take the student_answers entry
of the resulting dict, defaulting to the empty dict.  A JSON parse failure
raises json.JSONDecodeError; when the parsed value is not a dict, the
attribute access data.get raises. -/
def extract_student_answers (s : String) : Except String Json :=
  match jsonLoads (unicode_escape_decode s) with
  | none => Except.error "json.JSONDecodeError"
  | some (Json.obj kvs) =>
    Except.ok ((pyGet kvs "student_answers").getD (Json.obj []))
  | some _ => Except.error "AttributeError: get"

/-- One row of self.student_df.  Exactly the six columns named by usecols
are retained; every retained value is a string (dtype=str), and a missing
value (NaN, from a sentinel such as the literal na or from a short row) is
none. -/
structure Row where
  module_id : Option String
  student_id : Option String
  state : Option String
  created : Option String
  modified : Option String
  done : Option String
deriving DecidableEq

/-- Split a character list at every occurrence of a separator. -/
def splitOnChar (sep : Char) : List Char → List (List Char)
  | [] => [[]]
  | c :: rest =>
    match splitOnChar sep rest with
    | [] => [[c]]
    | cur :: more => if c = sep then [] :: cur :: more else (c :: cur) :: more

/-- Split a string at every occurrence of a separator character. -/
def splitStr (sep : Char) (s : String) : List String :=
  (splitOnChar sep s.data).map (fun l => ⟨l⟩)

/-- The sentinel strings pandas.read_csv treats as missing: its default
list, together with the value na passed as na_values. -/
def naValues : List String :=
  ["", "#N/A", "#N/A N/A", "#NA", "-1.#IND", "-1.#QNAN", "-NaN", "-nan",
   "1.#IND", "1.#QNAN", "<NA>", "N/A", "NA", "NULL", "NaN", "None",
   "n/a", "nan", "null", "na"]

/-- The value of a cell of a data row: the string at the given column
index, none when the row is too short or the string is a missing-value
sentinel. -/
def cellVal (cells : List String) (i : Nat) : Option String :=
  match cells[i]? with
  | none => none
  | some v => if v ∈ naValues then none else some v

/-- The index of a column name in the header. -/
def findCol : List String → String → Option Nat
  | [], _ => none
  | h :: t, c => if h = c then some 0 else (findCol t c).map (fun i => i + 1)

/-- Model of the pandas.read_csv call of read_encrypted_tsv on the decoded
text: a tab-delimited table whose first line is the header; only the six
usecols columns are retained (a column missing from the header raises
ValueError, and an empty input raises EmptyDataError); blank lines are
skipped; all values keep their string form (dtype=str) with the na_values
sentinels as missing values. -/
def parse_student_tsv (content : String) : Except String (List Row) :=
  if content = "" then Except.error "EmptyDataError" else
  match splitStr '\n' content with
  | [] => Except.error "EmptyDataError"
  | headerLine :: rest => do
    let header := splitStr '\t' headerLine
    let iMod ← pyReq (findCol header "module_id") "ValueError: usecols"
    let iStud ← pyReq (findCol header "student_id") "ValueError: usecols"
    let iState ← pyReq (findCol header "state") "ValueError: usecols"
    let iCre ← pyReq (findCol header "created") "ValueError: usecols"
    let iModif ← pyReq (findCol header "modified") "ValueError: usecols"
    let iDone ← pyReq (findCol header "done") "ValueError: usecols"
    Except.ok ((rest.filter (fun l => l ≠ "")).map (fun l =>
      ⟨cellVal (splitStr '\t' l) iMod, cellVal (splitStr '\t' l) iStud,
       cellVal (splitStr '\t' l) iState, cellVal (splitStr '\t' l) iCre,
       cellVal (splitStr '\t' l) iModif, cellVal (splitStr '\t' l) iDone⟩))

/-- Render a JSON value the way str() renders it inside a format string;
only display_name values, which are strings in the data, are ever read
back, so the non-string renderings are coarse. -/
def jsonFormatVal : Json → String
  | Json.str s => s
  | Json.bool b => if b then "True" else "False"
  | Json.null => "None"
  | Json.num r => r
  | Json.arr _ => "<list>"
  | Json.obj _ => "<dict>"

/-- Convert one JSON node of the course-structure document to the PyNode
projection.  Subscripting a non-dict node raises TypeError; a non-string
category value, which the script would merely compare unequal to
sequential and problem, is rendered by jsonFormatVal; metadata must be a
dict and children an array for the script to behave as modelled, so other
shapes are rejected here. -/
def nodeOfJson : Json → Except String PyNode
  | Json.obj kvs => do
    let cat := (pyGet kvs "category").map jsonFormatVal
    let md ← match pyGet kvs "metadata" with
      | none => Except.ok none
      | some (Json.obj mkvs) =>
        Except.ok (some (mkvs.map (fun kv => (kv.1, jsonFormatVal kv.2))))
      | some _ => Except.error "TypeError: metadata"
    let ch ← match pyGet kvs "children" with
      | none => Except.ok none
      | some (Json.arr xs) => do
        let ids ← xs.mapM (fun x => match x with
          | Json.str s => Except.ok s
          | _ => Except.error "TypeError: child id")
        Except.ok (some ids)
      | some _ => Except.error "TypeError: children"
    Except.ok ⟨cat, md, ch⟩
  | _ => Except.error "TypeError: node"

/-- Convert the parsed course-structure document to the CourseStructure
projection; iterating items() of a non-dict document raises. -/
def toCourseStructure : Json → Except String CourseStructure
  | Json.obj kvs => kvs.mapM (fun kv => (nodeOfJson kv.2).map (fun nd => (kv.1, nd)))
  | _ => Except.error "AttributeError: items"

/-- read_encrypted_json on the text the gpg subprocess wrote to its pipe:
none models a missing or undecryptable input file, for which gpg writes
nothing, so json.load reads an empty stream and raises. -/
def read_encrypted_json (contents : Option String) : Except String Json :=
  match jsonLoads (contents.getD "") with
  | some j => Except.ok j
  | none => Except.error "json.JSONDecodeError"

/-- read_encrypted_tsv on the text the gpg subprocess wrote to its pipe:
none models a missing or undecryptable input file, for which pandas reads
an empty stream and raises EmptyDataError. -/
def read_encrypted_tsv (contents : Option String) : Except String (List Row) :=
  parse_student_tsv (contents.getD "")

/-- The state of an UngradedProblems object after __init__. -/
structure UngradedProblems where
  course_structure : CourseStructure
  student_df : List Row
  ungraded : UngradedMap
deriving DecidableEq

/-- UngradedProblems.__init__, taking the decrypted text of the two input
files: read the course-structure JSON, read the studentmodule TSV, then
extract the ungraded problems.  Any failure propagates: there is no
handler. -/
def UngradedProblems.init (structureText studentText : Option String) :
    Except String UngradedProblems := do
  let sj ← read_encrypted_json structureText
  let df ← read_encrypted_tsv studentText
  let cs ← toCourseStructure sj
  let ung ← extract_ungraded cs
  pure ⟨cs, df, ung⟩

/-- Test whether a character list begins with a path separator. -/
def headSlash : List Char → Bool
  | [] => false
  | c :: _ => c = '/'

/-- Test whether a character list ends with a path separator. -/
def lastSlash (l : List Char) : Bool := headSlash l.reverse

/-- os.path.join for two components, posix semantics: an absolute second
component replaces the first; otherwise a separator is inserted unless the
first component is empty or already ends with one. -/
def pathJoin (a b : String) : String :=
  if headSlash b.data then b
  else if a.data = [] then b
  else if lastSlash a.data then a ++ b
  else a ++ "/" ++ b

/-- The output file path of write_records for a section and problem name:
the directory prefix ungraded_problems is hardcoded in the format string,
independent of the base_dir argument. -/
def outPath (s n : String) : String :=
  "ungraded_problems/" ++ s ++ "/" ++ n ++ ".tsv"

/-- The row selection self.student_df.loc[self.student_df.module_id == pid]:
exactly the rows whose module_id equals pid (a missing module_id compares
unequal). -/
def selectRows (df : List Row) (pid : String) : List Row :=
  df.filter (fun r => decide (r.module_id = some pid))

/-- The column assignment
raw_records[student_answers] = raw_records.state.apply(extract_student_answers):
pair every selected row with the extracted answers of its state string.
Applying to a missing state raises, since a float NaN has no encode
attribute. -/
def applyAnswers : List Row → Except String (List (Row × Json))
  | [] => Except.ok []
  | r :: rest => do
    let s ← pyReq r.state "AttributeError: encode"
    let a ← extract_student_answers s
    let more ← applyAnswers rest
    pure ((r, a) :: more)

/-- The effects of write_records: the directories created by makedirs, and
the files written by to_csv, each as its path with the records written to
it, both in execution order. -/
structure WriteOutput where
  dirs : List String
  files : List (String × List (Row × Json))

/-- The inner loop of write_records over the problems of one section: for
each (name, pid), select the rows with that module_id, attach the
student_answers column, and write them to the hardcoded path. -/
def problemLoop (df : List Row) (s : String) :
    List (String × String) → Except String (List (String × List (Row × Json)))
  | [] => Except.ok []
  | (n, p) :: rest => do
    let recs ← applyAnswers (selectRows df p)
    let more ← problemLoop df s rest
    pure ((outPath s n, recs) :: more)

/-- The outer loop of write_records over the sections: create the directory
base_dir/section, then write the files of its problems. -/
def sectionLoop (df : List Row) (base : String) :
    UngradedMap → Except String WriteOutput
  | [] => Except.ok ⟨[], []⟩
  | (s, probs) :: rest => do
    let fs ← problemLoop df s probs
    let out ← sectionLoop df base rest
    pure ⟨pathJoin base s :: out.dirs, fs ++ out.files⟩

/-- UngradedProblems.write_records.  The boolean-mask selection
self.student_df.loc[...] returns a new DataFrame, so the column assignment
on raw_records (the SettingWithCopyWarning the code comments mention) does
not alter self.student_df, and nothing else assigns to self: the object is
returned unchanged alongside the described effects. -/
def write_records (up : UngradedProblems) (base : String) :
    Except String (UngradedProblems × WriteOutput) :=
  (sectionLoop up.student_df base up.ungraded).map (fun o => (up, o))

/-- The lines under __main__: construct UngradedProblems from the two
decrypted inputs and write the records with base_dir ungraded_problems. -/
def mainRun (structureText studentText : Option String) :
    Except String WriteOutput := do
  let up ← UngradedProblems.init structureText studentText
  let r ← write_records up "ungraded_problems"
  pure r.2

/-- The content a path holds after a sequence of writes: the value of the
last write to that path, none when the path was never written. -/
def lastWrite {α : Type} : List (String × α) → String → Option α
  | [], _ => none
  | (q, v) :: rest, p =>
    match lastWrite rest p with
    | some w => some w
    | none => if q = p then some v else none

/-- Membership of a record in self.ungraded: some section s holds the pair
(n, p). -/
def memU (m : UngradedMap) (s n p : String) : Prop :=
  ∃ probs, (s, probs) ∈ m ∧ (n, p) ∈ probs

/-- The condition under which the loop body of add_from_vert records the
triple (s, n, p) when it meets the child id c: c resolves to a problem
node, the vertical is displayed as s, the child as n, and p is c. -/
def ChildAdds (cs : CourseStructure) (vert : PyNode) (c s n p : String) : Prop :=
  ∃ child vmd cmd,
    pyGet cs c = some child ∧ child.category = some "problem" ∧
    vert.metadata = some vmd ∧ pyGet vmd "display_name" = some s ∧
    child.metadata = some cmd ∧ pyGet cmd "display_name" = some n ∧ p = c

/-- The condition under which add_from_vert on a vertical records the
triple (s, n, p): some child of the vertical does. -/
def VertAdds (cs : CourseStructure) (vert : PyNode) (s n p : String) : Prop :=
  ∃ kids, vert.children = some kids ∧ ∃ c ∈ kids, ChildAdds cs vert c s n p

/-- The condition under which the top-level loop body on a node records the
triple (s, n, p): the node is an ungraded sequential and one of the
verticals it references records it. -/
def SeqAdds (cs : CourseStructure) (desc : PyNode) (s n p : String) : Prop :=
  desc.category = some "sequential" ∧
  ∃ md, desc.metadata = some md ∧ pyGet md "graded" = none ∧
  ∃ vids, desc.children = some vids ∧
  ∃ vid ∈ vids, ∃ vert, pyGet cs vid = some vert ∧ VertAdds cs vert s n p

/-- Reachability of a problem record as a grandchild of an ungraded
top-level container: some node of course_structure is a sequential whose
metadata lacks graded, references a vertical displayed as s, and that
vertical has the problem child p displayed as n. -/
def UngradedPath (cs : CourseStructure) (s n p : String) : Prop :=
  ∃ id desc, (id, desc) ∈ cs ∧ SeqAdds cs desc s n p

/-- The per-child part of the sufficient precondition for add_from_vert:
the child id resolves, its node has a category, and when that category is
problem both the vertical and the child carry a display_name. -/
def childOkB (cs : CourseStructure) (vert : PyNode) (c : String) : Bool :=
  match pyGet cs c with
  | none => false
  | some child =>
    match child.category with
    | none => false
    | some ccat =>
      if ccat = "problem" then
        (match vert.metadata with
         | none => false
         | some vmd => (pyGet vmd "display_name").isSome) &&
        (match child.metadata with
         | none => false
         | some cmd => (pyGet cmd "display_name").isSome)
      else true

/-- The per-vertical part of the sufficient precondition: a children list
is present and every child satisfies childOkB. -/
def vertOkB (cs : CourseStructure) (vert : PyNode) : Bool :=
  match vert.children with
  | none => false
  | some kids => kids.all (childOkB cs vert)

/-- The per-node part of the sufficient precondition: a category is
present; a sequential also carries metadata; an ungraded sequential also
carries a children list whose every id resolves to a vertical satisfying
vertOkB. -/
def nodeOkB (cs : CourseStructure) (desc : PyNode) : Bool :=
  match desc.category with
  | none => false
  | some cat =>
    if cat = "sequential" then
      match desc.metadata with
      | none => false
      | some md =>
        if (pyGet md "graded").isNone then
          match desc.children with
          | none => false
          | some vids => vids.all (fun vid =>
              match pyGet cs vid with
              | none => false
              | some vert => vertOkB cs vert)
        else true
    else true

/-- The sufficient precondition for extract_ungraded to complete without
error: every node of course_structure satisfies nodeOkB. -/
def preB (cs : CourseStructure) : Bool := cs.all (fun p => nodeOkB cs p.2)

/-- Whether a node is a sequential whose metadata lacks graded. -/
def ungradedSeqB (desc : PyNode) : Bool :=
  match desc.category, desc.metadata with
  | some cat, some md => cat = "sequential" && (pyGet md "graded").isNone
  | _, _ => false

/-- The precondition exactly as the specification claim states it: every
node has the keys category and metadata; every ungraded sequential node
and every vertical it references has a children list; and every id in
those children lists is a key of course_structure. -/
def statedPreB (cs : CourseStructure) : Bool :=
  cs.all (fun p => p.2.category.isSome && p.2.metadata.isSome) &&
  cs.all (fun p =>
    if ungradedSeqB p.2 then
      match p.2.children with
      | none => false
      | some vids => vids.all (fun vid =>
          match pyGet cs vid with
          | none => false
          | some vert =>
            match vert.children with
            | none => false
            | some kids => kids.all (fun k => (pyGet cs k).isSome))
    else true)

/-- The problem records a list of child ids contributes, read off the
structure: the ids that resolve to problem nodes carrying a display_name,
paired as (display_name, id). -/
def childProblems (cs : CourseStructure) (kids : List String) : List (String × String) :=
  kids.filterMap (fun c =>
      match pyGet cs c with
      | none => none
      | some child =>
        if child.category = some "problem" then
          match child.metadata with
          | none => none
          | some cmd => (pyGet cmd "display_name").map (fun nm => (nm, c))
        else none)

/-- The problems a vertical contributes.  Under the success of
add_from_vert this is exactly what the loop appends. -/
def vertProblems (cs : CourseStructure) (vert : PyNode) : List (String × String) :=
  match vert.children with
  | none => []
  | some kids => childProblems cs kids

/-- Append a list of problem records one by one under a single section
key. -/
def appendMany (u : UngradedMap) (d : String) (ps : List (String × String)) : UngradedMap :=
  ps.foldl (fun m pr => setdefaultAppend m d pr) u

/-- A graded sequential: its metadata contains the key graded. -/
def nodeGradedSeq : PyNode :=
  ⟨some "sequential", some [("graded", "True"), ("display_name", "G")], some ["v"]⟩

/-- An ungraded sequential referencing the same vertical. -/
def nodeUngradedSeq : PyNode :=
  ⟨some "sequential", some [("display_name", "U")], some ["v"]⟩

/-- A vertical holding one problem. -/
def nodeVert : PyNode := ⟨some "vertical", some [("display_name", "V")], some ["p"]⟩

/-- A problem node. -/
def nodeProb : PyNode := ⟨some "problem", some [("display_name", "P")], some []⟩

/-- A course structure in which the problem p sits under both a graded and
an ungraded top-level container. -/
def csShared : CourseStructure :=
  [("g", nodeGradedSeq), ("u", nodeUngradedSeq), ("v", nodeVert), ("p", nodeProb)]

/-- A course structure in which every node has category and metadata keys
and every children id resolves, but display_name is absent from the
metadata. -/
def csNoName : CourseStructure :=
  [("u", ⟨some "sequential", some [], some ["v"]⟩),
   ("v", ⟨some "vertical", some [], some ["p"]⟩),
   ("p", ⟨some "problem", some [], some []⟩)]

/-- A course structure with a dangling vertical reference under an
ungraded sequential. -/
def csDangling : CourseStructure :=
  [("u", ⟨some "sequential", some [], some ["missing"]⟩)]

/-- Two verticals sharing the display_name S, each holding one problem
displayed as P. -/
def csDup : CourseStructure :=
  [("s", ⟨some "sequential", some [], some ["v1", "v2"]⟩),
   ("v1", ⟨some "vertical", some [("display_name", "S")], some ["p1"]⟩),
   ("v2", ⟨some "vertical", some [("display_name", "S")], some ["p2"]⟩),
   ("p1", ⟨some "problem", some [("display_name", "P")], some []⟩),
   ("p2", ⟨some "problem", some [("display_name", "P")], some []⟩)]

/-- A student row whose state is the empty JSON object. -/
def row1 : Row :=
  ⟨some "p1", some "alice", some "\x7b\x7d", some "2014-01-01", none, none⟩

/-- A second student row, for the problem p2. -/
def row2 : Row :=
  ⟨some "p2", some "bob", some "\x7b\x7d", some "2014-01-02", none, none⟩

/-- A small UngradedProblems object for concrete runs of write_records. -/
def up1 : UngradedProblems := ⟨csDup, [row1, row2], [("S", [("P", "p1")])]⟩

/-- An UngradedProblems object whose one section holds two problems that
share the display_name P. -/
def upDup : UngradedProblems :=
  ⟨csDup, [row1, row2], [("S", [("P", "p1"), ("P", "p2")])]⟩

theorem bind_ok {α β : Type} {e : Except String α} {k : α → Except String β} {b : β}
    (h : (e >>= k) = Except.ok b) : ∃ a, e = Except.ok a ∧ k a = Except.ok b := by
  cases e with
  | ok a => exact ⟨a, rfl, h⟩
  | error msg => simp [Bind.bind, Except.bind] at h

theorem pure_ok {α : Type} (a : α) : (pure a : Except String α) = Except.ok a := rfl

theorem pyReq_ok {α : Type} {o : Option α} {e : String} {a : α}
    (h : pyReq o e = Except.ok a) : o = some a := by
  cases o with
  | none => simp [pyReq] at h
  | some x => simpa [pyReq] using h

theorem memU_setdefaultAppend (m : UngradedMap) (k : String) (v : String × String)
    (s n p : String) :
    memU (setdefaultAppend m k v) s n p ↔ memU m s n p ∨ (s = k ∧ (n, p) = v) := by
  induction m with
  | nil =>
    simp only [memU, setdefaultAppend, List.mem_singleton, Prod.mk.injEq]
    constructor
    · rintro ⟨probs, ⟨hs, hp⟩, hin⟩
      subst hp
      exact Or.inr ⟨hs, List.mem_singleton.mp hin⟩
    · rintro (⟨probs, h1, _⟩ | ⟨hs, hv⟩)
      · exact absurd h1 (List.not_mem_nil _)
      · exact ⟨[v], ⟨hs, rfl⟩, hv ▸ List.mem_singleton.mpr rfl⟩
  | cons head tail ih =>
    obtain ⟨k0, vs⟩ := head
    by_cases hk : k0 = k
    · subst hk
      simp only [memU, setdefaultAppend, if_pos rfl] at *
      constructor
      · rintro ⟨probs, hmem, hin⟩
        rcases List.mem_cons.mp hmem with h1 | h1
        · obtain ⟨hs, hp⟩ := Prod.mk.injEq .. ▸ h1
          subst hs
          rcases List.mem_append.mp (hp ▸ hin) with h2 | h2
          · exact Or.inl ⟨vs, List.mem_cons_self .., h2⟩
          · exact Or.inr ⟨rfl, List.mem_singleton.mp h2⟩
        · exact Or.inl ⟨probs, List.mem_cons_of_mem _ h1, hin⟩
      · rintro (⟨probs, hmem, hin⟩ | ⟨hs, hv⟩)
        · rcases List.mem_cons.mp hmem with h1 | h1
          · obtain ⟨hs, hp⟩ := Prod.mk.injEq .. ▸ h1
            subst hs
            exact ⟨vs ++ [v], List.mem_cons_self .., List.mem_append.mpr (Or.inl (hp ▸ hin))⟩
          · exact ⟨probs, List.mem_cons_of_mem _ h1, hin⟩
        · subst hs
          exact ⟨vs ++ [v], List.mem_cons_self .., hv ▸ List.mem_append.mpr (Or.inr (List.mem_singleton.mpr rfl))⟩
    · simp only [memU, setdefaultAppend, if_neg hk] at *
      constructor
      · rintro ⟨probs, hmem, hin⟩
        rcases List.mem_cons.mp hmem with h1 | h1
        · exact Or.inl ⟨probs, List.mem_cons.mpr (Or.inl h1), hin⟩
        · rcases ih.mp ⟨probs, h1, hin⟩ with h2 | h2
          · obtain ⟨q, hq1, hq2⟩ := h2
            exact Or.inl ⟨q, List.mem_cons_of_mem _ hq1, hq2⟩
          · exact Or.inr h2
      · rintro (⟨probs, hmem, hin⟩ | hkv)
        · rcases List.mem_cons.mp hmem with h1 | h1
          · exact ⟨probs, List.mem_cons.mpr (Or.inl h1), hin⟩
          · obtain ⟨q, hq1, hq2⟩ := ih.mpr (Or.inl ⟨probs, h1, hin⟩)
            exact ⟨q, List.mem_cons_of_mem _ hq1, hq2⟩
        · obtain ⟨q, hq1, hq2⟩ := ih.mpr (Or.inr hkv)
          exact ⟨q, List.mem_cons_of_mem _ hq1, hq2⟩

theorem add_from_vert_child_mem {cs : CourseStructure} {vert : PyNode}
    {ung ung1 : UngradedMap} {c : String}
    (h : add_from_vert_child cs vert ung c = Except.ok ung1) (s n p : String) :
    memU ung1 s n p ↔ memU ung s n p ∨ ChildAdds cs vert c s n p := by
  unfold add_from_vert_child at h
  obtain ⟨child, hchild, h⟩ := bind_ok h
  obtain ⟨cat, hcat, h⟩ := bind_ok h
  replace hchild := pyReq_ok hchild
  replace hcat := pyReq_ok hcat
  by_cases hp : cat = "problem"
  · subst hp
    rw [if_pos rfl] at h
    obtain ⟨vmd, hvmd, h⟩ := bind_ok h
    obtain ⟨vname, hvname, h⟩ := bind_ok h
    obtain ⟨cmd, hcmd, h⟩ := bind_ok h
    obtain ⟨cname, hcname, h⟩ := bind_ok h
    replace hvmd := pyReq_ok hvmd
    replace hvname := pyReq_ok hvname
    replace hcmd := pyReq_ok hcmd
    replace hcname := pyReq_ok hcname
    rw [pure_ok] at h
    injection h with h
    subst h
    rw [memU_setdefaultAppend]
    constructor
    · rintro (hm | ⟨hs, hv⟩)
      · exact Or.inl hm
      · refine Or.inr ⟨child, vmd, cmd, hchild, hcat, hvmd, ?_, hcmd, ?_, ?_⟩
        · exact hs ▸ hvname
        · have hn : n = cname := (Prod.mk.injEq .. ▸ hv).1
          exact hn ▸ hcname
        · exact (Prod.mk.injEq .. ▸ hv).2
    · rintro (hm | ⟨child1, vmd1, cmd1, h1, h2, h3, h4, h5, h6, h7⟩)
      · exact Or.inl hm
      · refine Or.inr ⟨?_, ?_⟩
        · have e1 : child1 = child := Option.some.inj (h1.symm.trans hchild)
          have e3 : vmd1 = vmd := Option.some.inj (h3.symm.trans hvmd)
          have hthis := e3 ▸ h4
          exact (Option.some.inj (hvname.symm.trans hthis)).symm
        · have e1 : child1 = child := Option.some.inj (h1.symm.trans hchild)
          have e5 : cmd1 = cmd := Option.some.inj ((e1 ▸ h5).symm.trans hcmd)
          have hn : n = cname := Option.some.inj ((e5 ▸ h6).symm.trans hcname)
          rw [hn, h7]
  · rw [if_neg hp, pure_ok] at h
    injection h with h
    subst h
    constructor
    · exact Or.inl
    · rintro (hm | ⟨child1, vmd1, cmd1, h1, h2, h3, h4, h5, h6, h7⟩)
      · exact hm
      · have e1 : child1 = child := Option.some.inj (h1.symm.trans hchild)
        exact absurd (Option.some.inj ((e1 ▸ h2).symm.trans hcat)).symm hp

theorem addChildLoop_mem {cs : CourseStructure} {vert : PyNode} (l : List String) :
    ∀ {ung ung1 : UngradedMap},
    addChildLoop cs vert ung l = Except.ok ung1 → ∀ s n p,
    (memU ung1 s n p ↔ memU ung s n p ∨ ∃ c ∈ l, ChildAdds cs vert c s n p) := by
  induction l with
  | nil =>
    intro ung ung1 h s n p
    unfold addChildLoop at h
    injection h with h
    subst h
    simp
  | cons c rest ih =>
    intro ung ung1 h s n p
    unfold addChildLoop at h
    obtain ⟨u1, hu1, h⟩ := bind_ok h
    rw [ih h s n p, add_from_vert_child_mem hu1 s n p]
    simp only [List.mem_cons]
    constructor
    · rintro ((hm | hc) | ⟨c1, hc1, hadds⟩)
      · exact Or.inl hm
      · exact Or.inr ⟨c, Or.inl rfl, hc⟩
      · exact Or.inr ⟨c1, Or.inr hc1, hadds⟩
    · rintro (hm | ⟨c1, (hc1 | hc1), hadds⟩)
      · exact Or.inl (Or.inl hm)
      · exact Or.inl (Or.inr (hc1 ▸ hadds))
      · exact Or.inr ⟨c1, hc1, hadds⟩

theorem add_from_vert_mem {cs : CourseStructure} {vert : PyNode}
    {ung ung1 : UngradedMap}
    (h : add_from_vert cs ung vert = Except.ok ung1) (s n p : String) :
    memU ung1 s n p ↔ memU ung s n p ∨ VertAdds cs vert s n p := by
  unfold add_from_vert at h
  obtain ⟨kids, hkids, h⟩ := bind_ok h
  replace hkids := pyReq_ok hkids
  rw [addChildLoop_mem _ h s n p]
  constructor
  · rintro (hm | ⟨c, hc, hadds⟩)
    · exact Or.inl hm
    · exact Or.inr ⟨kids, hkids, c, hc, hadds⟩
  · rintro (hm | ⟨kids1, hkids1, c, hc, hadds⟩)
    · exact Or.inl hm
    · have e : kids1 = kids := Option.some.inj (hkids1.symm.trans hkids)
      exact Or.inr ⟨c, e ▸ hc, hadds⟩

theorem vertLoop_mem {cs : CourseStructure} (l : List String) :
    ∀ {ung ung1 : UngradedMap},
    vertLoop cs ung l = Except.ok ung1 → ∀ s n p,
    (memU ung1 s n p ↔ memU ung s n p ∨
      ∃ vid ∈ l, ∃ vert, pyGet cs vid = some vert ∧ VertAdds cs vert s n p) := by
  induction l with
  | nil =>
    intro ung ung1 h s n p
    unfold vertLoop at h
    injection h with h
    subst h
    simp
  | cons vid rest ih =>
    intro ung ung1 h s n p
    unfold vertLoop at h
    obtain ⟨vert, hvert, h⟩ := bind_ok h
    obtain ⟨u1, hu1, h⟩ := bind_ok h
    replace hvert := pyReq_ok hvert
    rw [ih h s n p, add_from_vert_mem hu1 s n p]
    simp only [List.mem_cons]
    constructor
    · rintro ((hm | hv) | ⟨v1, hv1, hrest⟩)
      · exact Or.inl hm
      · exact Or.inr ⟨vid, Or.inl rfl, vert, hvert, hv⟩
      · exact Or.inr ⟨v1, Or.inr hv1, hrest⟩
    · rintro (hm | ⟨v1, (hv1 | hv1), vert1, hvert1, hadds⟩)
      · exact Or.inl (Or.inl hm)
      · have e : vert1 = vert := Option.some.inj ((hv1 ▸ hvert1).symm.trans hvert)
        exact Or.inl (Or.inr (e ▸ hadds))
      · exact Or.inr ⟨v1, hv1, vert1, hvert1, hadds⟩

theorem extract_seq_mem {cs : CourseStructure} {ung ung1 : UngradedMap}
    {desc : PyNode}
    (h : extract_seq cs ung desc = Except.ok ung1) (s n p : String) :
    memU ung1 s n p ↔ memU ung s n p ∨ SeqAdds cs desc s n p := by
  unfold extract_seq at h
  obtain ⟨cat, hcat, h⟩ := bind_ok h
  replace hcat := pyReq_ok hcat
  by_cases h1 : cat = "sequential"
  · subst h1
    rw [if_pos rfl] at h
    obtain ⟨md, hmd, h⟩ := bind_ok h
    replace hmd := pyReq_ok hmd
    by_cases h2 : pyGet md "graded" = none
    · rw [if_pos h2] at h
      obtain ⟨vids, hvids, h⟩ := bind_ok h
      replace hvids := pyReq_ok hvids
      rw [vertLoop_mem _ h s n p]
      constructor
      · rintro (hm | ⟨vid, hvid, vert, hvert, hadds⟩)
        · exact Or.inl hm
        · exact Or.inr ⟨hcat, md, hmd, h2, vids, hvids, vid, hvid, vert, hvert, hadds⟩
      · rintro (hm | ⟨_, md1, hmd1, _, vids1, hvids1, vid, hvid, vert, hvert, hadds⟩)
        · exact Or.inl hm
        · have e : vids1 = vids := Option.some.inj (hvids1.symm.trans hvids)
          exact Or.inr ⟨vid, e ▸ hvid, vert, hvert, hadds⟩
    · rw [if_neg h2, pure_ok] at h
      injection h with h
      subst h
      constructor
      · exact Or.inl
      · rintro (hm | ⟨_, md1, hmd1, hgr, _⟩)
        · exact hm
        · have e : md1 = md := Option.some.inj (hmd1.symm.trans hmd)
          exact absurd (e ▸ hgr) h2
  · rw [if_neg h1, pure_ok] at h
    injection h with h
    subst h
    constructor
    · exact Or.inl
    · rintro (hm | ⟨hseq, _⟩)
      · exact hm
      · exact absurd (Option.some.inj (hseq.symm.trans hcat)).symm h1

theorem topLoop_mem {cs : CourseStructure} (l : List (String × PyNode)) :
    ∀ {ung ung1 : UngradedMap},
    topLoop cs ung l = Except.ok ung1 → ∀ s n p,
    (memU ung1 s n p ↔ memU ung s n p ∨
      ∃ pr ∈ l, SeqAdds cs (Prod.snd pr) s n p) := by
  induction l with
  | nil =>
    intro ung ung1 h s n p
    unfold topLoop at h
    injection h with h
    subst h
    simp
  | cons pr rest ih =>
    intro ung ung1 h s n p
    unfold topLoop at h
    obtain ⟨u1, hu1, h⟩ := bind_ok h
    rw [ih h s n p, extract_seq_mem hu1 s n p]
    simp only [List.mem_cons]
    constructor
    · rintro ((hm | hc) | ⟨pr1, hpr1, hadds⟩)
      · exact Or.inl hm
      · exact Or.inr ⟨pr, Or.inl rfl, hc⟩
      · exact Or.inr ⟨pr1, Or.inr hpr1, hadds⟩
    · rintro (hm | ⟨pr1, (hpr1 | hpr1), hadds⟩)
      · exact Or.inl (Or.inl hm)
      · exact Or.inl (Or.inr (hpr1 ▸ hadds))
      · exact Or.inr ⟨pr1, hpr1, hadds⟩

/-- C1 (amended): a record (n, p) is placed under section s of
self.ungraded by extract_ungraded exactly when p is reachable as a
grandchild of a top-level container whose category is sequential and whose
metadata lacks the key graded, through a vertical displayed as s, with p a
problem displayed as n.  In particular no problem all of whose top-level
containers are graded is recorded; a problem under a graded container may
still be recorded when it also sits under an ungraded one. -/
theorem c1_extract_characterization (cs : CourseStructure) (m : UngradedMap)
    (h : extract_ungraded cs = Except.ok m) (s n p : String) :
    memU m s n p ↔ UngradedPath cs s n p := by
  unfold extract_ungraded at h
  rw [topLoop_mem _ h s n p]
  constructor
  · rintro (hm | ⟨⟨id, desc⟩, hpr, hadds⟩)
    · obtain ⟨probs, hprobs, _⟩ := hm
      exact absurd hprobs (List.not_mem_nil _)
    · exact ⟨id, desc, hpr, hadds⟩
  · rintro ⟨id, desc, hmem, hadds⟩
    exact Or.inr ⟨(id, desc), hmem, hadds⟩

theorem c1_extract_characterization_witness :
    UngradedPath csShared "V" "P" "p" :=
  (c1_extract_characterization csShared [("V", [("P", "p")])] rfl "V" "P" "p").mp
    ⟨[("P", "p")], by simp, by simp⟩

/-- C1 counterexample: in csShared the problem p sits under the top-level
container g, whose metadata contains the key graded, yet extract_ungraded
records it (because p is also reachable through the ungraded container u),
refuting the clause that no problem under a container whose metadata
contains graded is recorded. -/
theorem c1_counterexample :
    extract_ungraded csShared = Except.ok [("V", [("P", "p")])] ∧
    ("g", nodeGradedSeq) ∈ csShared ∧
    nodeGradedSeq.category = some "sequential" ∧
    (∃ md, nodeGradedSeq.metadata = some md ∧ pyGet md "graded" ≠ none) ∧
    nodeGradedSeq.children = some ["v"] ∧
    pyGet csShared "v" = some nodeVert ∧
    nodeVert.children = some ["p"] ∧
    pyGet csShared "p" = some nodeProb ∧
    nodeProb.category = some "problem" ∧
    memU [("V", [("P", "p")])] "V" "P" "p" := by
  refine ⟨rfl, by decide, rfl, ⟨_, rfl, by decide⟩, rfl, by decide, rfl, by decide, rfl,
    ⟨[("P", "p")], by simp, by simp⟩⟩

theorem add_from_vert_child_succeeds {cs : CourseStructure} {vert : PyNode}
    {c : String} (hc : childOkB cs vert c = true) (ung : UngradedMap) :
    ∃ u1, add_from_vert_child cs vert ung c = Except.ok u1 := by
  unfold childOkB at hc
  cases hget : pyGet cs c with
  | none => simp [hget] at hc
  | some child =>
    simp only [hget] at hc
    cases hcat : child.category with
    | none => simp [hcat] at hc
    | some ccat =>
      simp only [hcat] at hc
      by_cases hcc : ccat = "problem"
      · subst hcc
        rw [if_pos rfl] at hc
        obtain ⟨hc1, hc2⟩ := Bool.and_eq_true_iff.mp hc
        cases hvm : vert.metadata with
        | none => simp [hvm] at hc1
        | some vmd =>
          simp only [hvm] at hc1
          obtain ⟨vn, hvn⟩ := Option.isSome_iff_exists.mp hc1
          cases hcm : child.metadata with
          | none => simp [hcm] at hc2
          | some cmd =>
            simp only [hcm] at hc2
            obtain ⟨cn, hcn⟩ := Option.isSome_iff_exists.mp hc2
            refine ⟨setdefaultAppend ung vn (cn, c), ?_⟩
            simp [add_from_vert_child, hget, hcat, hvm, hvn, hcm, hcn, pyReq,
              Bind.bind, Except.bind, pure_ok]
      · refine ⟨ung, ?_⟩
        simp [add_from_vert_child, hget, hcat, pyReq, Bind.bind, Except.bind, hcc, pure_ok]

theorem addChildLoop_succeeds {cs : CourseStructure} {vert : PyNode}
    (l : List String) (hall : ∀ c ∈ l, childOkB cs vert c = true) :
    ∀ ung, ∃ u1, addChildLoop cs vert ung l = Except.ok u1 := by
  induction l with
  | nil => intro ung; exact ⟨ung, rfl⟩
  | cons c rest ih =>
    intro ung
    obtain ⟨u1, hu1⟩ := add_from_vert_child_succeeds (hall c (List.mem_cons_self ..)) ung
    obtain ⟨u2, hu2⟩ := ih (fun x hx => hall x (List.mem_cons_of_mem _ hx)) u1
    refine ⟨u2, ?_⟩
    unfold addChildLoop
    rw [hu1]
    exact hu2

theorem add_from_vert_succeeds {cs : CourseStructure} {vert : PyNode}
    (hv : vertOkB cs vert = true) (ung : UngradedMap) :
    ∃ u1, add_from_vert cs ung vert = Except.ok u1 := by
  unfold vertOkB at hv
  cases hch : vert.children with
  | none => simp [hch] at hv
  | some kids =>
    simp only [hch] at hv
    obtain ⟨u1, hu1⟩ := addChildLoop_succeeds kids (List.all_eq_true.mp hv) ung
    refine ⟨u1, ?_⟩
    unfold add_from_vert
    rw [hch]
    exact hu1

theorem vertLoop_succeeds {cs : CourseStructure} (l : List String)
    (hall : ∀ vid ∈ l, ∃ vert, pyGet cs vid = some vert ∧ vertOkB cs vert = true) :
    ∀ ung, ∃ u1, vertLoop cs ung l = Except.ok u1 := by
  induction l with
  | nil => intro ung; exact ⟨ung, rfl⟩
  | cons vid rest ih =>
    intro ung
    obtain ⟨vert, hvert, hok⟩ := hall vid (List.mem_cons_self ..)
    obtain ⟨u1, hu1⟩ := add_from_vert_succeeds hok ung
    obtain ⟨u2, hu2⟩ := ih (fun x hx => hall x (List.mem_cons_of_mem _ hx)) u1
    refine ⟨u2, ?_⟩
    unfold vertLoop
    rw [hvert]
    show (Except.ok vert >>= fun vert => _) = _
    rw [show ∀ (a : PyNode) (k : PyNode → Except String UngradedMap),
        (Except.ok a >>= k) = k a from fun a k => rfl]
    rw [hu1]
    exact hu2

theorem extract_seq_succeeds {cs : CourseStructure} {desc : PyNode}
    (hd : nodeOkB cs desc = true) (ung : UngradedMap) :
    ∃ u1, extract_seq cs ung desc = Except.ok u1 := by
  unfold nodeOkB at hd
  cases hcat : desc.category with
  | none => simp [hcat] at hd
  | some cat =>
    simp only [hcat] at hd
    by_cases hc : cat = "sequential"
    · subst hc
      rw [if_pos rfl] at hd
      cases hmd : desc.metadata with
      | none => simp [hmd] at hd
      | some md =>
        simp only [hmd] at hd
        by_cases hg : (pyGet md "graded").isNone
        · rw [if_pos hg] at hd
          cases hch : desc.children with
          | none => simp [hch] at hd
          | some vids =>
            simp only [hch] at hd
            have hall : ∀ vid ∈ vids, ∃ vert, pyGet cs vid = some vert ∧
                vertOkB cs vert = true := by
              intro vid hvid
              have hthis := List.all_eq_true.mp hd vid hvid
              cases hv : pyGet cs vid with
              | none => simp [hv] at hthis
              | some vert => simp only [hv] at hthis; exact ⟨vert, rfl, hthis⟩
            obtain ⟨u1, hu1⟩ := vertLoop_succeeds vids hall ung
            refine ⟨u1, ?_⟩
            simp only [extract_seq, hcat, hmd, hch, pyReq, Bind.bind, Except.bind,
              if_pos rfl, Option.isNone_iff_eq_none.mp hg, if_pos rfl]
            exact hu1
        · refine ⟨ung, ?_⟩
          have hg2 : ¬ pyGet md "graded" = none := fun e => hg (Option.isNone_iff_eq_none.mpr e)
          simp only [extract_seq, hcat, hmd, pyReq, Bind.bind, Except.bind,
            if_pos rfl, if_neg hg2]
          rfl
    · refine ⟨ung, ?_⟩
      simp only [extract_seq, hcat, pyReq, Bind.bind, Except.bind, if_neg hc]
      rfl

theorem topLoop_succeeds {cs : CourseStructure} (l : List (String × PyNode))
    (hall : ∀ pr ∈ l, nodeOkB cs (Prod.snd pr) = true) :
    ∀ ung, ∃ u1, topLoop cs ung l = Except.ok u1 := by
  induction l with
  | nil => intro ung; exact ⟨ung, rfl⟩
  | cons pr rest ih =>
    intro ung
    obtain ⟨u1, hu1⟩ := extract_seq_succeeds (hall pr (List.mem_cons_self ..)) ung
    obtain ⟨u2, hu2⟩ := ih (fun x hx => hall x (List.mem_cons_of_mem _ hx)) u1
    refine ⟨u2, ?_⟩
    unfold topLoop
    rw [hu1]
    exact hu2

theorem vertLoop_resolves {cs : CourseStructure} (l : List String) :
    ∀ {ung ung1 : UngradedMap}, vertLoop cs ung l = Except.ok ung1 →
    ∀ vid ∈ l, (pyGet cs vid).isSome := by
  induction l with
  | nil => intro ung ung1 _ vid hvid; exact absurd hvid (List.not_mem_nil _)
  | cons v rest ih =>
    intro ung ung1 h vid hvid
    unfold vertLoop at h
    obtain ⟨vert, hvert, h⟩ := bind_ok h
    obtain ⟨u1, _, h⟩ := bind_ok h
    rcases List.mem_cons.mp hvid with h1 | h1
    · subst h1
      rw [pyReq_ok hvert]
      rfl
    · exact ih h vid h1

theorem topLoop_pieces {cs : CourseStructure} (l : List (String × PyNode)) :
    ∀ {ung ung1 : UngradedMap}, topLoop cs ung l = Except.ok ung1 →
    ∀ pr ∈ l, ∃ u1 u2, extract_seq cs u1 (Prod.snd pr) = Except.ok u2 := by
  induction l with
  | nil => intro ung ung1 _ pr hpr; exact absurd hpr (List.not_mem_nil _)
  | cons q rest ih =>
    intro ung ung1 h pr hpr
    unfold topLoop at h
    obtain ⟨u1, hu1, h⟩ := bind_ok h
    rcases List.mem_cons.mp hpr with h1 | h1
    · subst h1
      exact ⟨ung, u1, hu1⟩
    · exact ih h pr h1

theorem extract_seq_resolves {cs : CourseStructure} {ung ung1 : UngradedMap}
    {desc : PyNode} {md : List (String × String)} {vids : List String}
    (h : extract_seq cs ung desc = Except.ok ung1)
    (hcat : desc.category = some "sequential") (hmd : desc.metadata = some md)
    (hg : pyGet md "graded" = none) (hch : desc.children = some vids) :
    ∀ vid ∈ vids, (pyGet cs vid).isSome := by
  unfold extract_seq at h
  obtain ⟨cat, hcat1, h⟩ := bind_ok h
  have e1 : cat = "sequential" := Option.some.inj ((pyReq_ok hcat1).symm.trans hcat)
  subst e1
  rw [if_pos rfl] at h
  obtain ⟨md1, hmd1, h⟩ := bind_ok h
  have e2 : md1 = md := Option.some.inj ((pyReq_ok hmd1).symm.trans hmd)
  subst e2
  rw [if_pos hg] at h
  obtain ⟨vids1, hvids1, h⟩ := bind_ok h
  have e3 : vids1 = vids := Option.some.inj ((pyReq_ok hvids1).symm.trans hch)
  subst e3
  exact vertLoop_resolves _ h

/-- C7 (amended): extract_ungraded completes without error under the
sufficient precondition preB: every node has a category; every ungraded
sequential also has metadata and a children list whose ids resolve to
verticals that have children lists of resolving ids; and for every problem
child, both the vertical and the child carry a display_name in their
metadata.  Moreover a dangling vertical reference under an ungraded
sequential always makes extraction fail with an error (the KeyError).
Necessity of the precondition is not claimed. -/
theorem c7_precondition (cs : CourseStructure) :
    (preB cs = true → ∃ m, extract_ungraded cs = Except.ok m) ∧
    (∀ id desc md vids vid, (id, desc) ∈ cs → desc.category = some "sequential" →
      desc.metadata = some md → pyGet md "graded" = none →
      desc.children = some vids → vid ∈ vids → pyGet cs vid = none →
      ∀ m, extract_ungraded cs ≠ Except.ok m) := by
  constructor
  · intro hpre
    exact topLoop_succeeds cs (List.all_eq_true.mp hpre) []
  · intro id desc md vids vid hmem hcat hmd hg hch hvid hnone m hok
    unfold extract_ungraded at hok
    obtain ⟨u1, u2, hseq⟩ := topLoop_pieces cs hok (id, desc) hmem
    have := extract_seq_resolves hseq hcat hmd hg hch vid hvid
    rw [hnone] at this
    exact absurd this (by simp)

theorem c7_precondition_witness :
    (∃ m, extract_ungraded csDup = Except.ok m) ∧
    (∀ m, extract_ungraded csDangling ≠ Except.ok m) := by
  constructor
  · exact (c7_precondition csDup).1 (by decide)
  · intro m
    exact (c7_precondition csDangling).2 "u" ⟨some "sequential", some [], some ["missing"]⟩
      [] ["missing"] "missing" (by decide) rfl rfl rfl rfl (by decide) (by decide) m

/-- C7 counterexample: csNoName satisfies the precondition exactly as the
claim states it (every node has the keys category and metadata, every
ungraded sequential and referenced vertical has a children list, and every
listed id is a key of course_structure), yet extraction raises a KeyError,
because display_name is absent from the metadata of the vertical: the
stated precondition does not make the error branch unreachable. -/
theorem c7_counterexample :
    statedPreB csNoName = true ∧
    extract_ungraded csNoName = Except.error "KeyError: display_name" :=
  ⟨by decide, rfl⟩

theorem applyAnswers_fst : ∀ {df : List Row} {recs : List (Row × Json)},
    applyAnswers df = Except.ok recs → recs.map Prod.fst = df := by
  intro df
  induction df with
  | nil =>
    intro recs h
    injection h with h
    subst h
    rfl
  | cons r rest ih =>
    intro recs h
    unfold applyAnswers at h
    obtain ⟨s, hs, h⟩ := bind_ok h
    obtain ⟨a, ha, h⟩ := bind_ok h
    obtain ⟨more, hmore, h⟩ := bind_ok h
    rw [pure_ok] at h
    injection h with h
    subst h
    simp [ih hmore]

theorem applyAnswers_each : ∀ {df : List Row} {recs : List (Row × Json)},
    applyAnswers df = Except.ok recs → ∀ ra ∈ recs,
    ∃ s, Row.state (Prod.fst ra) = some s ∧
      extract_student_answers s = Except.ok (Prod.snd ra) := by
  intro df
  induction df with
  | nil =>
    intro recs h ra hra
    injection h with h
    subst h
    exact absurd hra (List.not_mem_nil _)
  | cons r rest ih =>
    intro recs h ra hra
    unfold applyAnswers at h
    obtain ⟨s, hs, h⟩ := bind_ok h
    obtain ⟨a, ha, h⟩ := bind_ok h
    obtain ⟨more, hmore, h⟩ := bind_ok h
    rw [pure_ok] at h
    injection h with h
    subst h
    rcases List.mem_cons.mp hra with h1 | h1
    · subst h1
      exact ⟨s, pyReq_ok hs, ha⟩
    · exact ih hmore ra h1

theorem problemLoop_spec {df : List Row} {s : String} (probs : List (String × String)) :
    ∀ {fs : List (String × List (Row × Json))},
    problemLoop df s probs = Except.ok fs →
    (fs.map Prod.fst = probs.map (fun pr => outPath s (Prod.fst pr))) ∧
    (∀ n p, (n, p) ∈ probs → ∃ recs, (outPath s n, recs) ∈ fs ∧
      applyAnswers (selectRows df p) = Except.ok recs) ∧
    (∀ f ∈ fs, ∃ n p, (n, p) ∈ probs ∧ Prod.fst f = outPath s n ∧
      applyAnswers (selectRows df p) = Except.ok (Prod.snd f)) := by
  induction probs with
  | nil =>
    intro fs h
    injection h with h
    subst h
    refine ⟨rfl, ?_, ?_⟩
    · intro n p hp
      exact absurd hp (List.not_mem_nil _)
    · intro f hf
      exact absurd hf (List.not_mem_nil _)
  | cons pr rest ih =>
    intro fs h
    obtain ⟨n0, p0⟩ := pr
    unfold problemLoop at h
    obtain ⟨recs, hrecs, h⟩ := bind_ok h
    obtain ⟨more, hmore, h⟩ := bind_ok h
    rw [pure_ok] at h
    injection h with h
    subst h
    obtain ⟨ihmap, ihmem, ihall⟩ := ih hmore
    refine ⟨by simp [ihmap], ?_, ?_⟩
    · intro n p hp
      rcases List.mem_cons.mp hp with h1 | h1
      · obtain ⟨hn, hpp⟩ := Prod.mk.injEq .. ▸ h1
        subst hn
        subst hpp
        exact ⟨recs, List.mem_cons_self .., hrecs⟩
      · obtain ⟨recs1, hmem1, hap1⟩ := ihmem n p h1
        exact ⟨recs1, List.mem_cons_of_mem _ hmem1, hap1⟩
    · intro f hf
      rcases List.mem_cons.mp hf with h1 | h1
      · subst h1
        exact ⟨n0, p0, List.mem_cons_self .., rfl, hrecs⟩
      · obtain ⟨n, p, hmem1, hfst, hap1⟩ := ihall f h1
        exact ⟨n, p, List.mem_cons_of_mem _ hmem1, hfst, hap1⟩

theorem sectionLoop_spec {df : List Row} {base : String} (l : UngradedMap) :
    ∀ {out : WriteOutput}, sectionLoop df base l = Except.ok out →
    (out.dirs = l.map (fun sp => pathJoin base (Prod.fst sp))) ∧
    (out.files.map Prod.fst =
      l.flatMap (fun sp => (Prod.snd sp).map (fun pr => outPath (Prod.fst sp) (Prod.fst pr)))) ∧
    (∀ s probs, (s, probs) ∈ l → ∀ n p, (n, p) ∈ probs →
      ∃ recs, (outPath s n, recs) ∈ out.files ∧
        applyAnswers (selectRows df p) = Except.ok recs) ∧
    (∀ f ∈ out.files, ∃ s n p, Prod.fst f = outPath s n ∧
      applyAnswers (selectRows df p) = Except.ok (Prod.snd f)) := by
  induction l with
  | nil =>
    intro out h
    injection h with h
    subst h
    refine ⟨rfl, rfl, ?_, ?_⟩
    · intro s probs hp
      exact absurd hp (List.not_mem_nil _)
    · intro f hf
      exact absurd hf (List.not_mem_nil _)
  | cons sp rest ih =>
    intro out h
    obtain ⟨s0, probs0⟩ := sp
    unfold sectionLoop at h
    obtain ⟨fs, hfs, h⟩ := bind_ok h
    obtain ⟨out1, hout1, h⟩ := bind_ok h
    rw [pure_ok] at h
    injection h with h
    subst h
    obtain ⟨ihdirs, ihmap, ihmem, ihall⟩ := ih hout1
    obtain ⟨pmap, pmem, pall⟩ := problemLoop_spec probs0 hfs
    refine ⟨by simp [ihdirs], by simp [ihmap, pmap], ?_, ?_⟩
    · intro s probs hp n p hnp
      rcases List.mem_cons.mp hp with h1 | h1
      · obtain ⟨hs, hprobs⟩ := Prod.mk.injEq .. ▸ h1
        subst hs
        subst hprobs
        obtain ⟨recs, hmem1, hap1⟩ := pmem n p hnp
        exact ⟨recs, List.mem_append.mpr (Or.inl hmem1), hap1⟩
      · obtain ⟨recs, hmem1, hap1⟩ := ihmem s probs h1 n p hnp
        exact ⟨recs, List.mem_append.mpr (Or.inr hmem1), hap1⟩
    · intro f hf
      rcases List.mem_append.mp hf with h1 | h1
      · obtain ⟨n, p, _, hfst, hap1⟩ := pall f h1
        exact ⟨s0, n, p, hfst, hap1⟩
      · exact ihall f h1

theorem write_records_ok {up : UngradedProblems} {base : String}
    {up1 : UngradedProblems} {out : WriteOutput}
    (h : write_records up base = Except.ok (up1, out)) :
    up1 = up ∧ sectionLoop up.student_df base up.ungraded = Except.ok out := by
  unfold write_records at h
  cases hs : sectionLoop up.student_df base up.ungraded with
  | ok o =>
    rw [hs] at h
    simp only [Except.map] at h
    injection h with h
    obtain ⟨h1, h2⟩ := Prod.mk.injEq .. ▸ h
    subst h2
    exact ⟨h1.symm, rfl⟩
  | error e =>
    rw [hs] at h
    simp [Except.map] at h

/-- C2: for every section s of self.ungraded and every (name, pid) recorded
under it, write_records performs one write per problem, in order, grouped
into the per-section directory of the hardcoded prefix, and the records
written for (name, pid) are exactly the rows of self.student_df whose
module_id equals pid. -/
theorem c2_write_records_rows (up : UngradedProblems) (base : String)
    (up1 : UngradedProblems) (out : WriteOutput)
    (h : write_records up base = Except.ok (up1, out)) :
    (out.files.map Prod.fst =
      up.ungraded.flatMap
        (fun sp => (Prod.snd sp).map (fun pr => outPath (Prod.fst sp) (Prod.fst pr)))) ∧
    ∀ s probs, (s, probs) ∈ up.ungraded → ∀ n p, (n, p) ∈ probs →
    ∃ recs, (outPath s n, recs) ∈ out.files ∧
      recs.map Prod.fst = selectRows up.student_df p := by
  obtain ⟨_, hs⟩ := write_records_ok h
  obtain ⟨_, hmap, hmem, _⟩ := sectionLoop_spec up.ungraded hs
  refine ⟨hmap, ?_⟩
  intro s probs hp n p hnp
  obtain ⟨recs, hmem1, hap1⟩ := hmem s probs hp n p hnp
  exact ⟨recs, hmem1, applyAnswers_fst hap1⟩

theorem c2_write_records_rows_witness :
    ∃ recs, (outPath "S" "P", recs) ∈
      [("ungraded_problems/S/P.tsv", [(row1, Json.obj [])])] ∧
      recs.map Prod.fst = selectRows [row1, row2] "p1" :=
  (c2_write_records_rows up1 "base" up1
      ⟨["base/S"], [("ungraded_problems/S/P.tsv", [(row1, Json.obj [])])]⟩ rfl).2
    "S" [("P", "p1")] (by simp [up1]) "P" "p1" (by simp)

theorem extract_student_answers_ok {s : String} {a : Json}
    (h : extract_student_answers s = Except.ok a) :
    ∃ kvs, jsonLoads (unicode_escape_decode s) = some (Json.obj kvs) ∧
      a = (pyGet kvs "student_answers").getD (Json.obj []) := by
  unfold extract_student_answers at h
  cases hj : jsonLoads (unicode_escape_decode s) with
  | none => rw [hj] at h; exact absurd h (by simp)
  | some j =>
    rw [hj] at h
    cases j with
    | obj kvs =>
      injection h with h
      exact ⟨kvs, rfl, h.symm⟩
    | null => exact absurd h (by simp)
    | bool b => exact absurd h (by simp)
    | num r => exact absurd h (by simp)
    | str t => exact absurd h (by simp)
    | arr xs => exact absurd h (by simp)

/-- C3: every student_answers value written by write_records is obtained by
unicode-escape-decoding the state string of its row, parsing the result as
JSON, and taking the student_answers entry of the resulting dict, with the
empty dict as the default when the key is absent. -/
theorem c3_written_answers (up : UngradedProblems) (base : String)
    (up1 : UngradedProblems) (out : WriteOutput)
    (h : write_records up base = Except.ok (up1, out)) :
    ∀ f ∈ out.files, ∀ ra ∈ Prod.snd f, ∃ s kvs,
      Row.state (Prod.fst ra) = some s ∧
      jsonLoads (unicode_escape_decode s) = some (Json.obj kvs) ∧
      Prod.snd ra = (pyGet kvs "student_answers").getD (Json.obj []) := by
  obtain ⟨_, hs⟩ := write_records_ok h
  obtain ⟨_, _, _, hall⟩ := sectionLoop_spec up.ungraded hs
  intro f hf ra hra
  obtain ⟨s, n, p, _, hap⟩ := hall f hf
  obtain ⟨t, ht, hex⟩ := applyAnswers_each hap ra hra
  obtain ⟨kvs, hkvs, hval⟩ := extract_student_answers_ok hex
  exact ⟨t, kvs, ht, hkvs, hval⟩

theorem c3_written_answers_witness :
    ∃ s kvs, Row.state row1 = some s ∧
      jsonLoads (unicode_escape_decode s) = some (Json.obj kvs) ∧
      Json.obj [] = (pyGet kvs "student_answers").getD (Json.obj []) :=
  c3_written_answers up1 "base" up1
      ⟨["base/S"], [("ungraded_problems/S/P.tsv", [(row1, Json.obj [])])]⟩ rfl
    ("ungraded_problems/S/P.tsv", [(row1, Json.obj [])]) (by simp)
    (row1, Json.obj []) (by simp)

/-- C8: the extraction pipeline is deterministic and stateless: equal
course-structure documents and equal student tables give equal extraction
results and equal write_records effects; the functions depend on nothing
but their arguments. -/
theorem c8_deterministic (cs1 cs2 : CourseStructure) (df1 df2 : List Row)
    (ung : UngradedMap) (base : String) (h1 : cs1 = cs2) (h2 : df1 = df2) :
    extract_ungraded cs1 = extract_ungraded cs2 ∧
    write_records ⟨cs1, df1, ung⟩ base = write_records ⟨cs2, df2, ung⟩ base := by
  subst h1
  subst h2
  exact ⟨rfl, rfl⟩

theorem c8_deterministic_witness :
    extract_ungraded csDup = extract_ungraded csDup ∧
    write_records ⟨csDup, [row1], []⟩ "b" = write_records ⟨csDup, [row1], []⟩ "b" :=
  c8_deterministic csDup csDup [row1] [row1] [] "b" rfl rfl

/-- C9: write_records leaves the object unchanged: the boolean-mask row
selection copies, so the student_answers column exists only in the written
records, whose underlying rows are rows of the unchanged self.student_df;
self.ungraded and self.student_df are as before the call. -/
theorem c9_frame (up : UngradedProblems) (base : String)
    (up1 : UngradedProblems) (out : WriteOutput)
    (h : write_records up base = Except.ok (up1, out)) :
    up1 = up ∧ up1.ungraded = up.ungraded ∧ up1.student_df = up.student_df ∧
    ∀ f ∈ out.files, ∀ ra ∈ Prod.snd f, Prod.fst ra ∈ up.student_df := by
  obtain ⟨he, hs⟩ := write_records_ok h
  obtain ⟨_, _, _, hall⟩ := sectionLoop_spec up.ungraded hs
  refine ⟨he, he ▸ rfl, he ▸ rfl, ?_⟩
  intro f hf ra hra
  obtain ⟨s, n, p, _, hap⟩ := hall f hf
  have hfst := applyAnswers_fst hap
  have : Prod.fst ra ∈ (Prod.snd f).map Prod.fst := List.mem_map_of_mem _ hra
  rw [hfst] at this
  exact List.mem_of_mem_filter this

/-- C4: when either input file is missing or yields no decryptable content
(the gpg subprocess then writes nothing to its pipe, modelled as none),
constructing UngradedProblems fails, mainRun returns an error, and no
WriteOutput is produced: there is no recovery path. -/
theorem c4_missing_input_fails (sc stc : Option String) (h : sc = none ∨ stc = none) :
    ∃ e, mainRun sc stc = Except.error e := by
  rcases h with h | h
  · subst h
    exact ⟨"json.JSONDecodeError", rfl⟩
  · subst h
    cases hj : read_encrypted_json sc with
    | error e =>
      refine ⟨e, ?_⟩
      simp [mainRun, UngradedProblems.init, hj, Bind.bind, Except.bind]
    | ok j =>
      refine ⟨"EmptyDataError", ?_⟩
      simp [mainRun, UngradedProblems.init, hj, Bind.bind, Except.bind,
        read_encrypted_tsv, parse_student_tsv]

theorem c4_missing_input_fails_witness :
    ∃ e, mainRun none none = Except.error e :=
  c4_missing_input_fails none none (Or.inl rfl)

/-- C5: whenever parse_student_tsv succeeds, the input was split into a
header line and data lines at tabs; exactly the six columns module_id,
student_id, state, created, modified and done are retained, each value the
string cell of its column (none when the row is short or the cell is a
missing-value sentinel, among them the literal na); columns other than the
six named ones do not enter the result. -/
theorem c5_tsv_columns (content : String) (rows : List Row)
    (h : parse_student_tsv content = Except.ok rows) :
    ∃ headerLine rest iMod iStud iState iCre iModif iDone,
      splitStr '\n' content = headerLine :: rest ∧
      findCol (splitStr '\t' headerLine) "module_id" = some iMod ∧
      findCol (splitStr '\t' headerLine) "student_id" = some iStud ∧
      findCol (splitStr '\t' headerLine) "state" = some iState ∧
      findCol (splitStr '\t' headerLine) "created" = some iCre ∧
      findCol (splitStr '\t' headerLine) "modified" = some iModif ∧
      findCol (splitStr '\t' headerLine) "done" = some iDone ∧
      rows = (rest.filter (fun l => l ≠ "")).map (fun l =>
        ⟨cellVal (splitStr '\t' l) iMod, cellVal (splitStr '\t' l) iStud,
         cellVal (splitStr '\t' l) iState, cellVal (splitStr '\t' l) iCre,
         cellVal (splitStr '\t' l) iModif, cellVal (splitStr '\t' l) iDone⟩) ∧
      (∀ (cells : List String) i, cells[i]? = some "na" → cellVal cells i = none) ∧
      (∀ (cells : List String) i v, cellVal cells i = some v →
        cells[i]? = some v ∧ ¬ v ∈ naValues) := by
  unfold parse_student_tsv at h
  by_cases hc : content = ""
  · rw [if_pos hc] at h
    exact absurd h (by simp)
  · rw [if_neg hc] at h
    cases hsplit : splitStr '\n' content with
    | nil => rw [hsplit] at h; exact absurd h (by simp)
    | cons headerLine rest =>
      rw [hsplit] at h
      obtain ⟨iMod, h1, h⟩ := bind_ok h
      obtain ⟨iStud, h2, h⟩ := bind_ok h
      obtain ⟨iState, h3, h⟩ := bind_ok h
      obtain ⟨iCre, h4, h⟩ := bind_ok h
      obtain ⟨iModif, h5, h⟩ := bind_ok h
      obtain ⟨iDone, h6, h⟩ := bind_ok h
      injection h with h
      subst h
      refine ⟨headerLine, rest, iMod, iStud, iState, iCre, iModif, iDone, rfl,
        pyReq_ok h1, pyReq_ok h2, pyReq_ok h3, pyReq_ok h4, pyReq_ok h5, pyReq_ok h6,
        rfl, ?_, ?_⟩
      · intro cells i hna
        simp only [cellVal, hna]
        rw [if_pos (show "na" ∈ naValues by decide)]
      · intro cells i v hv
        simp only [cellVal] at hv
        cases hg : cells[i]? with
        | none =>
          simp only [hg] at hv
          exact absurd hv (by simp)
        | some w =>
          simp only [hg] at hv
          by_cases hw : w ∈ naValues
          · rw [if_pos hw] at hv
            exact absurd hv (by simp)
          · rw [if_neg hw] at hv
            injection hv with hv
            subst hv
            exact ⟨rfl, hw⟩

theorem c5_tsv_columns_witness :
    ∃ headerLine rest iMod iStud iState iCre iModif iDone,
      splitStr '\n'
          "module_id\tstudent_id\tstate\tcreated\tmodified\tdone\textra\np1\talice\tna\tc\tm\td\tx\n" =
        headerLine :: rest ∧
      findCol (splitStr '\t' headerLine) "module_id" = some iMod ∧
      findCol (splitStr '\t' headerLine) "student_id" = some iStud ∧
      findCol (splitStr '\t' headerLine) "state" = some iState ∧
      findCol (splitStr '\t' headerLine) "created" = some iCre ∧
      findCol (splitStr '\t' headerLine) "modified" = some iModif ∧
      findCol (splitStr '\t' headerLine) "done" = some iDone ∧
      [(⟨some "p1", some "alice", none, some "c", some "m", some "d"⟩ : Row)] =
        (rest.filter (fun l => l ≠ "")).map (fun l =>
        ⟨cellVal (splitStr '\t' l) iMod, cellVal (splitStr '\t' l) iStud,
         cellVal (splitStr '\t' l) iState, cellVal (splitStr '\t' l) iCre,
         cellVal (splitStr '\t' l) iModif, cellVal (splitStr '\t' l) iDone⟩) ∧
      (∀ (cells : List String) i, cells[i]? = some "na" → cellVal cells i = none) ∧
      (∀ (cells : List String) i v, cellVal cells i = some v →
        cells[i]? = some v ∧ ¬ v ∈ naValues) :=
  c5_tsv_columns
    "module_id\tstudent_id\tstate\tcreated\tmodified\tdone\textra\np1\talice\tna\tc\tm\td\tx\n"
    [⟨some "p1", some "alice", none, some "c", some "m", some "d"⟩] rfl

theorem headSlash_eq {l : List Char} (h : headSlash l = true) : ∃ tl, l = '/' :: tl := by
  cases l with
  | nil => simp [headSlash] at h
  | cons c tl =>
    simp [headSlash] at h
    exact ⟨tl, by rw [h]⟩

theorem lastSlash_mem {l : List Char} (h : lastSlash l = true) : '/' ∈ l := by
  unfold lastSlash at h
  obtain ⟨tl, htl⟩ := headSlash_eq h
  have hmem : '/' ∈ l.reverse := htl ▸ List.mem_cons_self ..
  exact List.mem_reverse.mp hmem

theorem slash_not_mem_up : ¬ '/' ∈ "ungraded_problems".data := by decide

theorem outPath_data (sec name : String) :
    (outPath sec name).data =
      "ungraded_problems".data ++ '/' :: (sec.data ++ '/' :: (name.data ++ ".tsv".data)) := by
  have h1 : "ungraded_problems/".data = "ungraded_problems".data ++ ['/'] := by decide
  have h2 : "/".data = ['/'] := by decide
  simp [outPath, String.data_append, h1, h2]

/-- Whenever base_dir is nonempty and does not begin with the string
ungraded_problems, no directory write_records creates is a directory prefix
of any output file path. -/
theorem pathJoin_not_in_outPath (base s sec name : String) (h1 : base ≠ "")
    (h2 : ¬ ("ungraded_problems".data <+: base.data)) :
    ¬ ((pathJoin base s ++ "/").data <+: (outPath sec name).data) := by
  intro hpre
  rw [String.data_append, outPath_data] at hpre
  have hsd : "/".data = ['/'] := by decide
  have hU : "ungraded_problems".data = 'u' :: "ngraded_problems".data := by decide
  unfold pathJoin at hpre
  by_cases hb : headSlash s.data
  · rw [if_pos hb] at hpre
    obtain ⟨tl, htl⟩ := headSlash_eq hb
    rw [htl, hsd, hU] at hpre
    have := (List.cons_prefix_cons.mp hpre).1
    exact absurd this (by decide)
  · rw [if_neg hb] at hpre
    by_cases he : base.data = []
    · exact h1 (String.ext (he.trans rfl))
    · rw [if_neg he] at hpre
      by_cases hl : lastSlash base.data
      · rw [if_pos hl, String.data_append] at hpre
        have hbase : base.data <+:
            ("ungraded_problems".data ++ '/' :: (sec.data ++ '/' :: (name.data ++ ".tsv".data))) := by
          refine List.IsPrefix.trans ?_ hpre
          rw [List.append_assoc]
          exact List.prefix_append _ _
        rcases List.prefix_or_prefix_of_prefix hbase (List.prefix_append _ _) with hc | hc
        · exact slash_not_mem_up (hc.sublist.subset (lastSlash_mem hl))
        · exact h2 hc
      · rw [if_neg hl, String.data_append, String.data_append] at hpre
        rw [hsd] at hpre
        have heq : ((base.data ++ ['/']) ++ s.data) ++ ['/'] =
            base.data ++ '/' :: (s.data ++ ['/']) := by
          simp [List.append_assoc]
        rw [heq] at hpre
        have hbase : base.data <+:
            ("ungraded_problems".data ++ '/' :: (sec.data ++ '/' :: (name.data ++ ".tsv".data))) :=
          List.IsPrefix.trans (List.prefix_append _ _) hpre
        rcases List.prefix_or_prefix_of_prefix hbase (List.prefix_append _ _) with hc | hc
        · obtain ⟨k, hk⟩ := hc
          cases k with
          | nil =>
            refine h2 ?_
            rw [← hk, List.append_nil]
          | cons u0 krest =>
            rw [← hk, List.append_assoc] at hpre
            have hcanc := (List.prefix_append_right_inj base.data).mp hpre
            have hu0 : '/' = u0 := (List.cons_prefix_cons.mp hcanc).1
            have hmem : u0 ∈ "ungraded_problems".data := by
              rw [← hk]
              exact List.mem_append.mpr (Or.inr (List.mem_cons_self ..))
            exact slash_not_mem_up (hu0 ▸ hmem)
        · exact h2 hc

/-- C6 (amended): write_records creates the per-section directories under
base_dir but writes every output file to the hardcoded path
ungraded_problems/section/name.tsv, so for any nonempty base_dir that does
not begin with the string ungraded_problems, none of the output files lies
in any of the directories it created. -/
theorem c6_base_dir_unused (up : UngradedProblems) (base : String)
    (up1 : UngradedProblems) (out : WriteOutput)
    (h : write_records up base = Except.ok (up1, out))
    (h1 : base ≠ "") (h2 : ¬ ("ungraded_problems".data <+: base.data)) :
    (out.dirs = up.ungraded.map (fun sp => pathJoin base (Prod.fst sp))) ∧
    (∀ f ∈ out.files, ∃ sec nm, Prod.fst f = outPath sec nm) ∧
    (∀ d ∈ out.dirs, ∀ f ∈ out.files, ¬ ((d ++ "/").data <+: (Prod.fst f).data)) := by
  obtain ⟨_, hs⟩ := write_records_ok h
  obtain ⟨hdirs, _, _, hall⟩ := sectionLoop_spec up.ungraded hs
  refine ⟨hdirs, ?_, ?_⟩
  · intro f hf
    obtain ⟨sec, nm, p, hfst, _⟩ := hall f hf
    exact ⟨sec, nm, hfst⟩
  · intro d hd f hf
    obtain ⟨sec, nm, p, hfst, _⟩ := hall f hf
    rw [hdirs] at hd
    obtain ⟨sp, _, hsp⟩ := List.mem_map.mp hd
    rw [← hsp, hfst]
    exact pathJoin_not_in_outPath base (Prod.fst sp) sec nm h1 h2

theorem c6_base_dir_unused_witness :
    (["out/S"] = List.map (fun sp => pathJoin "out" (Prod.fst sp))
        [("S", [("P", "p1")])]) ∧
    (∀ f ∈ [("ungraded_problems/S/P.tsv", [(row1, Json.obj [])])],
      ∃ sec nm, Prod.fst f = outPath sec nm) ∧
    (∀ d ∈ ["out/S"], ∀ f ∈ [("ungraded_problems/S/P.tsv", [(row1, Json.obj [])])],
      ¬ ((d ++ "/").data <+: (Prod.fst f).data)) :=
  c6_base_dir_unused up1 "out" up1
    ⟨["out/S"], [("ungraded_problems/S/P.tsv", [(row1, Json.obj [])])]⟩ rfl
    (by decide) (by decide)

/-- C6 counterexample: with base_dir the string ungraded_problems/ (with a
trailing separator), which differs from the string ungraded_problems, the
output file ungraded_problems/S/P.tsv does lie in the created directory
ungraded_problems/S, refuting the claim that for any base_dir different
from ungraded_problems the files are not placed in the directories it
created. -/
theorem c6_counterexample :
    "ungraded_problems/" ≠ "ungraded_problems" ∧
    write_records up1 "ungraded_problems/" = Except.ok (up1,
      ⟨["ungraded_problems/S"], [("ungraded_problems/S/P.tsv", [(row1, Json.obj [])])]⟩) ∧
    (("ungraded_problems/S" ++ "/").data <+: "ungraded_problems/S/P.tsv".data) := by
  refine ⟨by decide, rfl, ⟨"P.tsv".data, by decide⟩⟩

theorem c9_frame_witness :
    up1 = up1 ∧ up1.ungraded = up1.ungraded ∧ up1.student_df = up1.student_df ∧
    ∀ f ∈ WriteOutput.files
        ⟨["base/S"], [("ungraded_problems/S/P.tsv", [(row1, Json.obj [])])]⟩,
      ∀ ra ∈ Prod.snd f, Prod.fst ra ∈ up1.student_df :=
  c9_frame up1 "base" up1
    ⟨["base/S"], [("ungraded_problems/S/P.tsv", [(row1, Json.obj [])])]⟩ rfl


theorem appendMany_append (u : UngradedMap) (d : String)
    (a b : List (String × String)) :
    appendMany (appendMany u d a) d b = appendMany u d (a ++ b) := by
  simp [appendMany, List.foldl_append]

theorem pyGet_setdefaultAppend_self (u : UngradedMap) (d : String) (v : String × String) :
    pyGet (setdefaultAppend u d v) d = some ((pyGet u d).getD [] ++ [v]) := by
  induction u with
  | nil => simp [setdefaultAppend, pyGet]
  | cons head tail ih =>
    obtain ⟨k0, vs⟩ := head
    by_cases hk : k0 = d
    · subst hk
      simp [setdefaultAppend, pyGet]
    · simp [setdefaultAppend, pyGet, hk, ih]

theorem pyGet_setdefaultAppend_other (u : UngradedMap) (d : String) (v : String × String)
    (k : String) (hk : k ≠ d) :
    pyGet (setdefaultAppend u d v) k = pyGet u k := by
  induction u with
  | nil => simp [setdefaultAppend, pyGet, Ne.symm hk]
  | cons head tail ih =>
    obtain ⟨k0, vs⟩ := head
    by_cases h0 : k0 = d
    · subst h0
      have : ¬ k0 = k := fun h => hk (h.symm)
      simp [setdefaultAppend, pyGet, this]
    · by_cases h1 : k0 = k
      · subst h1
        simp [setdefaultAppend, pyGet, h0]
      · simp [setdefaultAppend, pyGet, h0, h1, ih]

theorem pyGet_appendMany_self (d : String) (ps : List (String × String)) :
    ∀ u, ps ≠ [] →
    pyGet (appendMany u d ps) d = some ((pyGet u d).getD [] ++ ps) := by
  induction ps with
  | nil => intro u h; exact absurd rfl h
  | cons v ps ih =>
    intro u _
    by_cases hps : ps = []
    · subst hps
      simp [appendMany, pyGet_setdefaultAppend_self]
    · have step : appendMany u d (v :: ps) = appendMany (setdefaultAppend u d v) d ps := rfl
      rw [step, ih (setdefaultAppend u d v) hps, pyGet_setdefaultAppend_self]
      simp

theorem pyGet_appendMany_other (d : String) (ps : List (String × String))
    (k : String) (hk : k ≠ d) :
    ∀ u, pyGet (appendMany u d ps) k = pyGet u k := by
  induction ps with
  | nil => intro u; rfl
  | cons v ps ih =>
    intro u
    have step : appendMany u d (v :: ps) = appendMany (setdefaultAppend u d v) d ps := rfl
    rw [step, ih (setdefaultAppend u d v), pyGet_setdefaultAppend_other u d v k hk]

theorem addChildLoop_appendMany {cs : CourseStructure} {vert : PyNode}
    {vmd : List (String × String)} {d : String}
    (hvm : vert.metadata = some vmd) (hd : pyGet vmd "display_name" = some d)
    (l : List String) :
    ∀ {ung ung1 : UngradedMap}, addChildLoop cs vert ung l = Except.ok ung1 →
    ung1 = appendMany ung d (childProblems cs l) := by
  induction l with
  | nil =>
    intro ung ung1 h
    injection h with h
    subst h
    rfl
  | cons c rest ih =>
    intro ung ung1 h
    unfold addChildLoop at h
    obtain ⟨u1, hu1, h⟩ := bind_ok h
    unfold add_from_vert_child at hu1
    obtain ⟨child, hchild, hu1⟩ := bind_ok hu1
    obtain ⟨cat, hcat, hu1⟩ := bind_ok hu1
    replace hchild := pyReq_ok hchild
    replace hcat := pyReq_ok hcat
    by_cases hp : cat = "problem"
    · subst hp
      rw [if_pos rfl] at hu1
      obtain ⟨vmd1, hvmd1, hu1⟩ := bind_ok hu1
      obtain ⟨vname, hvname, hu1⟩ := bind_ok hu1
      obtain ⟨cmd, hcmd, hu1⟩ := bind_ok hu1
      obtain ⟨cname, hcname, hu1⟩ := bind_ok hu1
      replace hvmd1 := pyReq_ok hvmd1
      replace hvname := pyReq_ok hvname
      replace hcmd := pyReq_ok hcmd
      replace hcname := pyReq_ok hcname
      rw [pure_ok] at hu1
      injection hu1 with hu1
      subst hu1
      have evm : vmd1 = vmd := Option.some.inj (hvmd1.symm.trans hvm)
      have evn : vname = d := Option.some.inj ((evm ▸ hvname).symm.trans hd)
      have hcp : childProblems cs (c :: rest) = (cname, c) :: childProblems cs rest := by
        simp [childProblems, hchild, hcat, hcmd, hcname]
      subst evn
      rw [hcp, ih h]
      rfl
    · rw [if_neg hp, pure_ok] at hu1
      injection hu1 with hu1
      subst hu1
      have hne : ¬ PyNode.category child = some "problem" := by
        rw [hcat]
        intro e
        exact hp (Option.some.inj e)
      have hcp : childProblems cs (c :: rest) = childProblems cs rest := by
        simp [childProblems, hchild, hne]
      rw [hcp]
      exact ih h

theorem add_from_vert_appendMany {cs : CourseStructure} {vert : PyNode}
    {ung ung1 : UngradedMap} {vmd : List (String × String)} {d : String}
    (hvm : vert.metadata = some vmd) (hd : pyGet vmd "display_name" = some d)
    (h : add_from_vert cs ung vert = Except.ok ung1) :
    ung1 = appendMany ung d (vertProblems cs vert) := by
  unfold add_from_vert at h
  obtain ⟨kids, hkids, h⟩ := bind_ok h
  replace hkids := pyReq_ok hkids
  rw [show vertProblems cs vert = childProblems cs kids by simp [vertProblems, hkids]]
  exact addChildLoop_appendMany hvm hd kids h

theorem lastWrite_eq_none {α : Type} (l : List (String × α)) (k : String) :
    lastWrite l k = none ↔ ∀ pr ∈ l, Prod.fst pr ≠ k := by
  induction l with
  | nil => simp [lastWrite]
  | cons head tail ih =>
    obtain ⟨q, v⟩ := head
    unfold lastWrite
    cases hrest : lastWrite tail k with
    | some w =>
      simp only [hrest]
      constructor
      · intro h
        exact absurd h (by simp)
      · intro h
        have := (ih.mpr (fun pr hpr => h pr (List.mem_cons_of_mem _ hpr)))
        rw [hrest] at this
        exact absurd this (by simp)
    | none =>
      simp only [hrest]
      by_cases hq : q = k
      · subst hq
        simp only [if_pos rfl]
        constructor
        · intro h
          exact absurd h (by simp)
        · intro h
          exact absurd rfl (h (q, v) (List.mem_cons_self ..))
      · simp only [if_neg hq]
        constructor
        · intro _ pr hpr
          rcases List.mem_cons.mp hpr with h1 | h1
          · rw [h1]
            exact hq
          · exact (ih.mp hrest) pr h1
        · intro _
          trivial

theorem outPath_inj_name (s a b : String) (h : outPath s a = outPath s b) : a = b := by
  have hd := congrArg String.data h
  rw [outPath_data, outPath_data] at hd
  have h1 := List.append_cancel_left hd
  injection h1 with _ h1
  have h2 := List.append_cancel_left h1
  injection h2 with _ h2
  exact String.ext (List.append_cancel_right h2)

theorem problemLoop_lastWrite {df : List Row} {s : String}
    (probs : List (String × String)) :
    ∀ {fs : List (String × List (Row × Json))},
    problemLoop df s probs = Except.ok fs →
    ∀ n p, lastWrite probs n = some p →
    ∃ recs, applyAnswers (selectRows df p) = Except.ok recs ∧
      lastWrite fs (outPath s n) = some recs := by
  induction probs with
  | nil =>
    intro fs h n p hlw
    simp [lastWrite] at hlw
  | cons pr rest ih =>
    intro fs h n p hlw
    obtain ⟨n0, p0⟩ := pr
    unfold problemLoop at h
    obtain ⟨recs0, hrecs0, h⟩ := bind_ok h
    obtain ⟨fs1, hfs1, h⟩ := bind_ok h
    rw [pure_ok] at h
    injection h with h
    subst h
    unfold lastWrite at hlw
    cases hrest : lastWrite rest n with
    | some w =>
      rw [hrest] at hlw
      injection hlw with hlw
      subst hlw
      obtain ⟨recs, hap, hlast⟩ := ih hfs1 n w hrest
      refine ⟨recs, hap, ?_⟩
      unfold lastWrite
      rw [hlast]
    | none =>
      rw [hrest] at hlw
      by_cases hn : n0 = n
      · subst hn
        rw [if_pos rfl] at hlw
        injection hlw with hlw
        subst hlw
        refine ⟨recs0, hrecs0, ?_⟩
        have hnone : lastWrite fs1 (outPath s n0) = none := by
          rw [lastWrite_eq_none]
          intro f hf hfeq
          have hmap := (problemLoop_spec rest hfs1).1
          have : Prod.fst f ∈ fs1.map Prod.fst := List.mem_map_of_mem _ hf
          rw [hmap] at this
          obtain ⟨q, hq, hqeq⟩ := List.mem_map.mp this
          have : Prod.fst q = n0 := outPath_inj_name s _ _ (hqeq.trans hfeq)
          exact (lastWrite_eq_none rest n0).mp hrest q hq this
        unfold lastWrite
        rw [hnone, if_pos rfl]
      · rw [if_neg hn] at hlw
        exact absurd hlw (by simp)

/-- C10: display-name collisions merge silently.  First, two verticals
sharing the display_name d have their problems appended to the single list
under the one key d of self.ungraded, other keys untouched.  Second, within
a section, problems sharing a display_name are written to the same output
path, so in the final state of the file system the records of the problem
written last are the ones that remain. -/
theorem c10_collisions :
    (∀ (cs : CourseStructure) (ung : UngradedMap) (v1 v2 : PyNode)
       (m1 m2 : List (String × String)) (d : String) (u1 u2 : UngradedMap),
      PyNode.metadata v1 = some m1 → pyGet m1 "display_name" = some d →
      PyNode.metadata v2 = some m2 → pyGet m2 "display_name" = some d →
      add_from_vert cs ung v1 = Except.ok u1 →
      add_from_vert cs u1 v2 = Except.ok u2 →
      vertProblems cs v1 ≠ [] →
      (pyGet u2 d =
        some ((pyGet ung d).getD [] ++ (vertProblems cs v1 ++ vertProblems cs v2)) ∧
       ∀ k, k ≠ d → pyGet u2 k = pyGet ung k)) ∧
    (∀ (df : List Row) (s : String) (probs : List (String × String))
       (fs : List (String × List (Row × Json))) (n p : String),
      problemLoop df s probs = Except.ok fs → lastWrite probs n = some p →
      ∃ recs, applyAnswers (selectRows df p) = Except.ok recs ∧
        lastWrite fs (outPath s n) = some recs) := by
  constructor
  · intro cs ung v1 v2 m1 m2 d u1 u2 hm1 hd1 hm2 hd2 h1 h2 hne
    have e1 := add_from_vert_appendMany hm1 hd1 h1
    have e2 := add_from_vert_appendMany hm2 hd2 h2
    subst e1
    subst e2
    rw [appendMany_append]
    constructor
    · exact pyGet_appendMany_self d _ ung (by simp [hne])
    · intro k hk
      exact pyGet_appendMany_other d _ k hk ung
  · intro df s probs fs n p h hlw
    exact problemLoop_lastWrite probs h n p hlw

theorem c10_collisions_witness :
    (pyGet [("S", [("P", "p1"), ("P", "p2")])] "S" =
      some ((pyGet ([] : UngradedMap) "S").getD [] ++
        (vertProblems csDup ⟨some "vertical", some [("display_name", "S")], some ["p1"]⟩ ++
         vertProblems csDup ⟨some "vertical", some [("display_name", "S")], some ["p2"]⟩)) ∧
     ∀ k, k ≠ "S" →
       pyGet [("S", [("P", "p1"), ("P", "p2")])] k = pyGet ([] : UngradedMap) k) ∧
    (∃ recs, applyAnswers (selectRows [row1, row2] "p2") = Except.ok recs ∧
      lastWrite [(outPath "S" "P", [(row1, Json.obj [])]),
        (outPath "S" "P", [(row2, Json.obj [])])] (outPath "S" "P") = some recs) :=
  ⟨c10_collisions.1 csDup [] ⟨some "vertical", some [("display_name", "S")], some ["p1"]⟩
      ⟨some "vertical", some [("display_name", "S")], some ["p2"]⟩
      [("display_name", "S")] [("display_name", "S")] "S"
      [("S", [("P", "p1")])] [("S", [("P", "p1"), ("P", "p2")])]
      rfl rfl rfl rfl rfl rfl (by decide),
   c10_collisions.2 [row1, row2] "S" [("P", "p1"), ("P", "p2")]
      [(outPath "S" "P", [(row1, Json.obj [])]), (outPath "S" "P", [(row2, Json.obj [])])]
      "P" "p2" rfl rfl⟩
